import Mathlib

/-!
# rpccloud/assert: the assertion engine of `assert.go`

A shallow embedding of `assert.go`.  Values captured by an assertion are Go
interface values; they are modelled by `GoValue`, a fragment of the Go value
universe that covers every kind the repository's tests exercise.  The library
functions the code calls (`reflect.DeepEqual`, `reflect.Value.IsNil`,
`fmt.Sprintf`, `strings.Split`, `strconv.Itoa`, `runtime.Caller`) are modelled
for that fragment from their documented behaviour.  Standard output and the
reporter are explicit state (`World`); a panic is an explicit outcome.
-/

namespace GoAssert

/-! ## Go types and values -/

/-- Go types of the modelled fragment: what `reflect.TypeOf` can return. -/
inductive GoType where
  | bool
  | int
  | int64
  | uint8
  | uintptr
  | string
  | unsafePointer
  | iface
  | ptr (elem : GoType)
  | slice (elem : GoType)
  | map (key elem : GoType)
  | chan (elem : GoType)
  | func (signature : String)
  | struct (name : String)
  deriving DecidableEq, Repr

/-- The text of `reflect.Type.String`, which `%T` prints. -/
def GoType.String : GoType → String
  | .bool => "bool"
  | .int => "int"
  | .int64 => "int64"
  | .uint8 => "uint8"
  | .uintptr => "uintptr"
  | .string => "string"
  | .unsafePointer => "unsafe.Pointer"
  | .iface => "interface {}"
  | .ptr e => "*" ++ e.String
  | .slice e => "[]" ++ e.String
  | .map k e => "map[" ++ k.String ++ "]" ++ e.String
  | .chan e => "chan " ++ e.String
  | .func s => s
  | .struct n => n

/-- A Go value held in an `interface{}`: `nil` is the interface holding nothing,
every other constructor is a dynamic value together with its dynamic type.
Pointers, slices, maps, channels and functions are either nil or carry the
address of what they refer to; an element of a slice, map or struct whose
static type is `interface{}` is again a `GoValue` (possibly `nil`). -/
inductive GoValue where
  | nil
  | bool (b : Bool)
  | int (n : Int)
  | int64 (n : Int)
  | uint8 (n : Nat)
  | uintptr (n : Nat)
  | string (s : String)
  | unsafePointer (addr : Nat)
  | nilPtr (elem : GoType)
  | ptr (elem : GoType) (addr : Nat) (target : GoValue)
  | nilSlice (elem : GoType)
  | slice (elem : GoType) (addr : Nat) (elems : List GoValue)
  | nilMap (key elem : GoType)
  | map (key elem : GoType) (addr : Nat) (entries : List (GoValue × GoValue))
  | nilChan (elem : GoType)
  | chan (elem : GoType) (addr : Nat)
  | nilFunc (signature : String)
  | func (signature : String) (addr : Nat)
  | struct (name : String) (fields : List GoValue)

/-- The dynamic type `reflect.TypeOf` reports; `none` for the nil interface. -/
def TypeOf : GoValue → Option GoType
  | .nil => none
  | .bool _ => some .bool
  | .int _ => some .int
  | .int64 _ => some .int64
  | .uint8 _ => some .uint8
  | .uintptr _ => some .uintptr
  | .string _ => some .string
  | .unsafePointer _ => some .unsafePointer
  | .nilPtr e => some (.ptr e)
  | .ptr e _ _ => some (.ptr e)
  | .nilSlice e => some (.slice e)
  | .slice e _ _ => some (.slice e)
  | .nilMap k e => some (.map k e)
  | .map k e _ _ => some (.map k e)
  | .nilChan e => some (.chan e)
  | .chan e _ => some (.chan e)
  | .nilFunc s => some (.func s)
  | .func s _ => some (.func s)
  | .struct n _ => some (.struct n)

/-- Go's `==` on two map keys of the same key type, for keys of the boolean,
integer, string, pointer, channel and unsafe-pointer kinds and the nil
interface; keys of a struct kind are outside the modelled fragment and match
nothing. -/
def keyEq : GoValue → GoValue → Bool
  | .nil, .nil => true
  | .bool a, .bool b => a == b
  | .int a, .int b => a == b
  | .int64 a, .int64 b => a == b
  | .uint8 a, .uint8 b => a == b
  | .uintptr a, .uintptr b => a == b
  | .string a, .string b => a == b
  | .unsafePointer a, .unsafePointer b => a == b
  | .nilPtr e1, .nilPtr e2 => e1 == e2
  | .ptr e1 a1 _, .ptr e2 a2 _ => e1 == e2 && a1 == a2
  | .nilChan e1, .nilChan e2 => e1 == e2
  | .chan e1 a1, .chan e2 a2 => e1 == e2 && a1 == a2
  | _, _ => false

/-- The entry `reflect.Value.MapIndex` finds for key `k`. -/
def MapIndex (entries : List (GoValue × GoValue)) (k : GoValue) : Option GoValue :=
  (entries.find? (fun e => keyEq k e.1)).map (fun e => e.2)

mutual
/-- The function `reflect.DeepEqual` on two interface values: a nil interface
equals only a nil interface, values of different dynamic types are unequal,
and values of one type are compared by kind. -/
def DeepEqual : GoValue → GoValue → Bool
  | .nil, .nil => true
  | .bool a, .bool b => a == b
  | .int a, .int b => a == b
  | .int64 a, .int64 b => a == b
  | .uint8 a, .uint8 b => a == b
  | .uintptr a, .uintptr b => a == b
  | .string a, .string b => a == b
  | .unsafePointer a, .unsafePointer b => a == b
  | .nilPtr e1, .nilPtr e2 => e1 == e2
  | .ptr e1 a1 x, .ptr e2 a2 y => e1 == e2 && (a1 == a2 || DeepEqual x y)
  | .nilSlice e1, .nilSlice e2 => e1 == e2
  | .slice e1 a1 xs, .slice e2 a2 ys =>
    e1 == e2 && xs.length == ys.length && (a1 == a2 || DeepEqualElems xs ys)
  | .nilMap k1 e1, .nilMap k2 e2 => k1 == k2 && e1 == e2
  | .map k1 e1 a1 m1, .map k2 e2 a2 m2 =>
    k1 == k2 && e1 == e2 && m1.length == m2.length && (a1 == a2 || DeepEqualEntries m1 m2)
  | .nilChan e1, .nilChan e2 => e1 == e2
  | .chan e1 a1, .chan e2 a2 => e1 == e2 && a1 == a2
  | .nilFunc s1, .nilFunc s2 => s1 == s2
  | .struct n1 fs1, .struct n2 fs2 =>
    n1 == n2 && fs1.length == fs2.length && DeepEqualElems fs1 fs2
  | _, _ => false
/-- Element-wise `DeepEqual` of two sequences (slice elements, struct fields). -/
def DeepEqualElems : List GoValue → List GoValue → Bool
  | [], _ => true
  | _ :: _, [] => false
  | x :: xs, y :: ys => DeepEqual x y && DeepEqualElems xs ys
/-- Every entry of the first map has a deep-equal entry under the same key in
the second. -/
def DeepEqualEntries : List (GoValue × GoValue) → List (GoValue × GoValue) → Bool
  | [], _ => true
  | (k, x) :: rest, m2 =>
    (match MapIndex m2 k with
     | some y => DeepEqual x y
     | none => false) && DeepEqualEntries rest m2
end

/-! ## Machine integers and `strconv.Itoa` -/

/-- The conversion `uint(x)` of a non-negative `int`, on a 64-bit word. -/
def toUint (n : Nat) : Nat := n % 2 ^ 64

/-- The conversion `int(x)` of a `uint`: two's complement on 64 bits. -/
def toInt (n : Nat) : Int :=
  if n % 2 ^ 64 < 2 ^ 63 then ((n % 2 ^ 64 : Nat) : Int) else ((n % 2 ^ 64 : Nat) : Int) - 2 ^ 64

/-- An `int` result brought back into the signed 64-bit range (overflow wraps). -/
def wrapInt (i : Int) : Int := toInt (i % 2 ^ 64).toNat

/-- The decimal text of `strconv.Itoa`. -/
def Itoa : Int → String
  | Int.ofNat m => Nat.repr m
  | Int.negSucc m => "-" ++ Nat.repr (m + 1)

/-- Lower-case hexadecimal with `0x`, as `fmt` prints an address. -/
def fmt0x64 (u : Nat) : String := "0x" ++ String.mk (Nat.toDigits 16 u)

/-! ## `fmt.Sprintf("%T(%v)", v, v)` -/

/-- The order `fmt` sorts map keys in (`internal/fmtsort`), for keys of one
integer, string, boolean or address kind; other pairs keep their order. -/
def keyLess : GoValue → GoValue → Bool
  | .bool a, .bool b => !a && b
  | .int a, .int b => a < b
  | .int64 a, .int64 b => a < b
  | .uint8 a, .uint8 b => a < b
  | .uintptr a, .uintptr b => a < b
  | .string a, .string b => a < b
  | .unsafePointer a, .unsafePointer b => a < b
  | _, _ => false

/-- Stable insertion of a printed entry into entries sorted by key. -/
def insertEntry (x : GoValue × String) : List (GoValue × String) → List (GoValue × String)
  | [] => [x]
  | y :: ys => if keyLess y.1 x.1 then y :: insertEntry x ys else x :: y :: ys

/-- Stable sort of printed map entries by key. -/
def sortEntries : List (GoValue × String) → List (GoValue × String)
  | [] => []
  | x :: xs => insertEntry x (sortEntries xs)

mutual
/-- The text `%v` prints for a value at nesting depth `depth` (`printValue` of
package `fmt`), for values whose types have no formatting methods. -/
def printValue : GoValue → Nat → String
  | .nil, _ => "<nil>"
  | .bool b, _ => if b then "true" else "false"
  | .int n, _ => Itoa n
  | .int64 n, _ => Itoa n
  | .uint8 n, _ => Nat.repr n
  | .uintptr n, _ => Nat.repr n
  | .string s, _ => s
  | .unsafePointer a, _ => if a = 0 then "<nil>" else fmt0x64 a
  | .nilPtr _, _ => "<nil>"
  | .ptr _ a x, depth =>
    if depth = 0 then
      match x with
      | .nilSlice _ => "&" ++ printValue x (depth + 1)
      | .slice _ _ _ => "&" ++ printValue x (depth + 1)
      | .nilMap _ _ => "&" ++ printValue x (depth + 1)
      | .map _ _ _ _ => "&" ++ printValue x (depth + 1)
      | .struct _ _ => "&" ++ printValue x (depth + 1)
      | _ => fmt0x64 a
    else fmt0x64 a
  | .nilSlice _, _ => "[]"
  | .slice _ _ xs, depth => "[" ++ " ".intercalate (printElems xs (depth + 1)) ++ "]"
  | .nilMap _ _, _ => "map[]"
  | .map _ _ _ m, depth =>
    "map[" ++ " ".intercalate ((sortEntries (printEntries m (depth + 1))).map (fun e => e.2)) ++ "]"
  | .nilChan _, _ => "<nil>"
  | .chan _ a, _ => fmt0x64 a
  | .nilFunc _, _ => "<nil>"
  | .func _ a, _ => fmt0x64 a
  | .struct _ fs, depth => "\x7b" ++ " ".intercalate (printElems fs (depth + 1)) ++ "\x7d"
/-- The printed elements of a slice or fields of a struct. -/
def printElems : List GoValue → Nat → List String
  | [], _ => []
  | x :: xs, depth => printValue x depth :: printElems xs depth
/-- The printed entries `key:value` of a map, each with its key. -/
def printEntries : List (GoValue × GoValue) → Nat → List (GoValue × String)
  | [], _ => []
  | (k, x) :: rest, depth =>
    (k, printValue k depth ++ ":" ++ printValue x depth) :: printEntries rest depth
end

/-- The text of `fmt.Sprintf("%T(%v)", v, v)`. -/
def sprintfTypeValue (v : GoValue) : String :=
  (match TypeOf v with
   | none => "<nil>"
   | some t => t.String) ++ "(" ++ printValue v 0 ++ ")"


/-! ## The helpers of `assert.go` -/

/-- The call `reflect.ValueOf(val).IsNil()` for a non-nil interface `val`: it
answers for the channel, function, map, pointer, unsafe pointer and slice
kinds and panics for every other kind. -/
def reflectIsNil : GoValue → Except String Bool
  | .unsafePointer a => .ok (a == 0)
  | .nilPtr _ => .ok true
  | .ptr _ _ _ => .ok false
  | .nilSlice _ => .ok true
  | .slice _ _ _ => .ok false
  | .nilMap _ _ => .ok true
  | .map _ _ _ _ => .ok false
  | .nilChan _ => .ok true
  | .chan _ _ => .ok false
  | .nilFunc _ => .ok true
  | .func _ _ => .ok false
  | _ => .error "reflect: call of reflect.Value.IsNil on a non-nilable Value"

/-- The body of `isNil`, before its deferred function runs. -/
def isNilBody : GoValue → Except String Bool
  | .nil => .ok true
  | val => reflectIsNil val

/-- The function `isNil`: the body, then the deferred function, which recovers
a panic of the body and sets the result to `false`. -/
def isNil (val : GoValue) : Except String Bool :=
  match isNilBody val with
  | .ok ret => .ok ret
  | .error _ => .ok false

/-- A stack frame as `runtime.Caller` reports it: file and line of the call. -/
structure Frame where
  file : String
  line : Int
  deriving DecidableEq, Repr

/-- The call `runtime.Caller(skip)` inside a function whose stack is `stack`,
innermost frame first; nothing when the stack is not that deep. -/
def runtimeCaller (stack : List Frame) (skip : Int) : Option Frame :=
  if skip < 0 then none else stack.get? skip.toNat

/-- The function `getFileLine`, called with the frames of its callers `stack`
(innermost first); its own frame is the call on line 30. -/
def getFileLine (stack : List Frame) (skip : Nat) : String :=
  match runtimeCaller (⟨"assert.go", 30⟩ :: stack) (wrapInt (toInt skip + 1)) with
  | some f => if f.line > 0 then f.file ++ ":" ++ Itoa f.line else ""
  | none => ""

/-- The segments between the newlines of a text. -/
def splitNewline : List Char → List (List Char)
  | [] => [[]]
  | c :: cs =>
    if c = '\n' then [] :: splitNewline cs
    else
      match splitNewline cs with
      | [] => [[c]]
      | seg :: segs => (c :: seg) :: segs

/-- The call `strings.Split(text, "\n")`. -/
def Split (text : String) : List String :=
  (splitNewline text.data).map String.mk

/-- The loop of `addPrefixPerLine` over the remaining segments, `n` being
`len(array)`, with the loop state `idx`, `first` and the buffer `sb`. -/
def addPrefixPerLineLoop (pfx : String) (n : Nat) :
    List String → Nat → Bool → String → String
  | [], _, _, sb => sb
  | v :: rest, idx, first, sb =>
    let sb1 := if first then sb else sb.push '\n'
    let sb2 :=
      if v ≠ "" ∨ idx = 0 ∨ (idx : Int) ≠ (n : Int) - 1 then (sb1 ++ pfx) ++ v else sb1
    addPrefixPerLineLoop pfx n rest (idx + 1) false sb2

/-- The function `addPrefixPerLine`. -/
def addPrefixPerLine (text : String) (pfx : String) : String :=
  addPrefixPerLineLoop pfx (Split text).length (Split text) 0 true ""

/-- The function `convertOrdinalToString` on an unsigned word `n`. -/
def convertOrdinalToString (n : Nat) : String :=
  if n = 0 then ""
  else if n = 1 then "1st"
  else if n = 2 then "2nd"
  else if n = 3 then "3rd"
  else Itoa (toInt n) ++ "th"

/-! ## Reporter, standard output and the assertion context -/

/-- A reporter handle: the host test object whose `Fail` marks the test. -/
abbrev Reporter := Nat

/-- What a call can change: the text written to standard output and the
reporters signalled through `Fail`, in order. -/
structure World where
  stdout : String
  signals : List Reporter
  deriving DecidableEq, Repr

/-- How a call ends: it returns, or a panic leaves it. -/
inductive Outcome where
  | returned (w : World)
  | panicked (w : World) (msg : String)
  deriving DecidableEq, Repr

/-- The state a call ends in. -/
def Outcome.world : Outcome → World
  | .returned w => w
  | .panicked w _ => w

/-- The struct `Assert`: the reporter (`none` is the nil interface) and the
captured values. -/
structure Assert where
  t : Option Reporter
  args : List GoValue

/-- The function `New`, applied to a reporter and then to the values. -/
def New (t : Option Reporter) (args : List GoValue) : Assert :=
  { t := t, args := args }

/-- The method `fail`, called with the frames of its callers: it writes the
record to standard output and then calls `Fail` on the reporter, which panics
when the reporter is the nil interface. -/
def Assert.fail (p : Assert) (stack : List Frame) (reason : String) (w : World) : Outcome :=
  let w1 : World :=
    { w with stdout := w.stdout ++
        ("\t" ++ reason ++ "\n\t" ++ getFileLine (⟨"assert.go", 94⟩ :: stack) 2 ++ "\n") }
  match p.t with
  | none => .panicked w1 "invalid memory address or nil pointer dereference"
  | some r => .returned { w1 with signals := w1.signals ++ [r] }

/-- The method `Fail`. -/
def Assert.Fail (p : Assert) (stack : List Frame) (reason : String) (w : World) : Outcome :=
  p.fail (⟨"assert.go", 101⟩ :: stack) reason w

/-- The loop `for i := 0; i < n; i++ { body }`: `remaining` iterations are
left from index `i` on; a panic of the body leaves the loop. -/
def forLoop (body : Nat → World → Outcome) : Nat → Nat → World → Outcome
  | 0, _, w => .returned w
  | remaining + 1, i, w =>
    match body i w with
    | .returned w1 => forLoop body remaining (i + 1) w1
    | .panicked w1 msg => .panicked w1 msg

/-- One iteration of the loop of `Equals`. -/
def Assert.EqualsBody (p : Assert) (args : List GoValue) (stack : List Frame)
    (i : Nat) (w : World) : Outcome :=
  match p.args.get? i, args.get? i with
  | some a, some e =>
    let report := p.fail (⟨"assert.go", 115⟩ :: stack)
      (convertOrdinalToString (toUint (i + 1)) ++ " argument does not equal\n\twant:\n" ++
        addPrefixPerLine (sprintfTypeValue e) "\t" ++ "\n\tgot:\n" ++
        addPrefixPerLine (sprintfTypeValue a) "\t") w
    if DeepEqual a e then .returned w
    else
      match isNil a with
      | .error msg => .panicked w msg
      | .ok false => report
      | .ok true =>
        match isNil e with
        | .error msg => .panicked w msg
        | .ok false => report
        | .ok true => .returned w
  | _, _ => .panicked w "index out of range"

/-- The method `Equals`, called from the frames `stack`. -/
def Assert.Equals (p : Assert) (args : List GoValue) (stack : List Frame) (w : World) :
    Outcome :=
  if p.args.length < 1 then
    p.fail (⟨"assert.go", 108⟩ :: stack) "arguments is empty" w
  else if p.args.length ≠ args.length then
    p.fail (⟨"assert.go", 110⟩ :: stack) "arguments length not match" w
  else
    forLoop (p.EqualsBody args stack) p.args.length 0 w

/-- One iteration of the loop of `IsNil`. -/
def Assert.IsNilBody (p : Assert) (stack : List Frame) (i : Nat) (w : World) : Outcome :=
  match p.args.get? i with
  | some a =>
    match isNil a with
    | .error msg => .panicked w msg
    | .ok true => .returned w
    | .ok false =>
      p.fail (⟨"assert.go", 139⟩ :: stack)
        (convertOrdinalToString (toUint (i + 1)) ++ " argument is not nil") w
  | none => .panicked w "index out of range"

/-- The method `IsNil`. -/
def Assert.IsNil (p : Assert) (stack : List Frame) (w : World) : Outcome :=
  if p.args.length < 1 then
    p.fail (⟨"assert.go", 135⟩ :: stack) "arguments is empty" w
  else
    forLoop (p.IsNilBody stack) p.args.length 0 w

/-- One iteration of the loop of `IsNotNil`. -/
def Assert.IsNotNilBody (p : Assert) (stack : List Frame) (i : Nat) (w : World) : Outcome :=
  match p.args.get? i with
  | some a =>
    match isNil a with
    | .error msg => .panicked w msg
    | .ok true =>
      p.fail (⟨"assert.go", 156⟩ :: stack)
        (convertOrdinalToString (toUint (i + 1)) ++ " argument is nil") w
    | .ok false => .returned w
  | none => .panicked w "index out of range"

/-- The method `IsNotNil`. -/
def Assert.IsNotNil (p : Assert) (stack : List Frame) (w : World) : Outcome :=
  if p.args.length < 1 then
    p.fail (⟨"assert.go", 152⟩ :: stack) "arguments is empty" w
  else
    forLoop (p.IsNotNilBody stack) p.args.length 0 w

/-- Go's `==` between an interface value and the boolean constant `b`: the
dynamic type is `bool` and the value is `b`. -/
def eqBool (v : GoValue) (b : Bool) : Bool :=
  match v with
  | .bool x => x == b
  | _ => false

/-- One iteration of the loop of `IsTrue`. -/
def Assert.IsTrueBody (p : Assert) (stack : List Frame) (i : Nat) (w : World) : Outcome :=
  match p.args.get? i with
  | some a =>
    if !eqBool a true then
      p.fail (⟨"assert.go", 173⟩ :: stack)
        (convertOrdinalToString (toUint (i + 1)) ++ " argument is not true") w
    else .returned w
  | none => .panicked w "index out of range"

/-- The method `IsTrue`. -/
def Assert.IsTrue (p : Assert) (stack : List Frame) (w : World) : Outcome :=
  if p.args.length < 1 then
    p.fail (⟨"assert.go", 169⟩ :: stack) "arguments is empty" w
  else
    forLoop (p.IsTrueBody stack) p.args.length 0 w

/-- One iteration of the loop of `IsFalse`. -/
def Assert.IsFalseBody (p : Assert) (stack : List Frame) (i : Nat) (w : World) : Outcome :=
  match p.args.get? i with
  | some a =>
    if !eqBool a false then
      p.fail (⟨"assert.go", 190⟩ :: stack)
        (convertOrdinalToString (toUint (i + 1)) ++ " argument is not false") w
    else .returned w
  | none => .panicked w "index out of range"

/-- The method `IsFalse`. -/
def Assert.IsFalse (p : Assert) (stack : List Frame) (w : World) : Outcome :=
  if p.args.length < 1 then
    p.fail (⟨"assert.go", 186⟩ :: stack) "arguments is empty" w
  else
    forLoop (p.IsFalseBody stack) p.args.length 0 w

/-! ## The specification's vocabulary -/

/-- Nil-like, in the words of the specification: the absence-of-value token,
or a value of a pointer, slice, map, function, channel or unsafe-pointer kind
whose content is nil. -/
def isNilLike : GoValue → Bool
  | .nil => true
  | .unsafePointer a => a == 0
  | .nilPtr _ => true
  | .nilSlice _ => true
  | .nilMap _ _ => true
  | .nilChan _ => true
  | .nilFunc _ => true
  | _ => false

/-- The location of the caller of a verb: `file:line` of the innermost frame
of `stack`, or the empty text when there is none. -/
def callerLocation (stack : List Frame) : String :=
  match stack.head? with
  | some f => if f.line > 0 then f.file ++ ":" ++ Itoa f.line else ""
  | none => ""

/-- The record one failure writes to the diagnostic output. -/
def failureRecord (loc reason : String) : String :=
  "\t" ++ reason ++ "\n\t" ++ loc ++ "\n"

/-- Concatenation of texts, in order. -/
def concatAll : List String → String
  | [] => ""
  | s :: rest => s ++ concatAll rest

/-- The world after the failures `reasons` were reported, in order, to the
reporter `r` from the location `loc`: one record written and one signal sent
for each. -/
def World.reported (w : World) (r : Reporter) (loc : String) (reasons : List String) : World :=
  { stdout := w.stdout ++ concatAll (reasons.map (failureRecord loc)),
    signals := w.signals ++ List.replicate reasons.length r }

/-- A pair captured/expected violates `Equals`: not deep-equal and not both
nil-like. -/
def equalsViolation (a e : GoValue) : Bool :=
  !DeepEqual a e && !(isNilLike a && isNilLike e)

/-- The reason `Equals` gives for the 1-based position `pos`, captured value
`a` and expected value `e`. -/
def equalsReason (pos : Nat) (a e : GoValue) : String :=
  convertOrdinalToString (toUint pos) ++ " argument does not equal\n\twant:\n" ++
    addPrefixPerLine (sprintfTypeValue e) "\t" ++ "\n\tgot:\n" ++
    addPrefixPerLine (sprintfTypeValue a) "\t"

/-- The failure of `Equals` at the 0-based index `i`, if that pair violates. -/
def equalsFailureAt (cap exp : List GoValue) (i : Nat) : Option String :=
  match cap.get? i, exp.get? i with
  | some a, some e => if equalsViolation a e then some (equalsReason (i + 1) a e) else none
  | _, _ => none

/-- The failures of `Equals`, one per violating position, in ascending order. -/
def equalsFailures (cap exp : List GoValue) : List String :=
  (List.range cap.length).filterMap (equalsFailureAt cap exp)

/-- The failure of a verb that tests each value on its own, at the 0-based
index `i`: the ordinal of the position followed by `what`, if the value
violates. -/
def predicateFailureAt (violates : GoValue → Bool) (what : String) (cap : List GoValue)
    (i : Nat) : Option String :=
  match cap.get? i with
  | some a => if violates a then some (convertOrdinalToString (toUint (i + 1)) ++ what) else none
  | none => none

/-- The value is not the boolean `b`: another type, or the other boolean. -/
def notTheBoolean (b : Bool) : GoValue → Bool
  | .bool x => x != b
  | _ => true

/-- The failure of `IsNil` at the 0-based index `i`: the value is not
nil-like. -/
def isNilFailureAt (cap : List GoValue) (i : Nat) : Option String :=
  predicateFailureAt (fun a => !isNilLike a) " argument is not nil" cap i

/-- The failure of `IsNotNil` at the 0-based index `i`: the value is nil-like. -/
def isNotNilFailureAt (cap : List GoValue) (i : Nat) : Option String :=
  predicateFailureAt (fun a => isNilLike a) " argument is nil" cap i

/-- The failure of `IsTrue` at the 0-based index `i`: the value is not `true`. -/
def isTrueFailureAt (cap : List GoValue) (i : Nat) : Option String :=
  predicateFailureAt (notTheBoolean true) " argument is not true" cap i

/-- The failure of `IsFalse` at the 0-based index `i`: the value is not
`false`. -/
def isFalseFailureAt (cap : List GoValue) (i : Nat) : Option String :=
  predicateFailureAt (notTheBoolean false) " argument is not false" cap i

/-- The failures of `IsNil`, in ascending position order. -/
def isNilFailures (cap : List GoValue) : List String :=
  (List.range cap.length).filterMap (isNilFailureAt cap)

/-- The failures of `IsNotNil`, in ascending position order. -/
def isNotNilFailures (cap : List GoValue) : List String :=
  (List.range cap.length).filterMap (isNotNilFailureAt cap)

/-- The failures of `IsTrue`, in ascending position order. -/
def isTrueFailures (cap : List GoValue) : List String :=
  (List.range cap.length).filterMap (isTrueFailureAt cap)

/-- The failures of `IsFalse`, in ascending position order. -/
def isFalseFailures (cap : List GoValue) : List String :=
  (List.range cap.length).filterMap (isFalseFailureAt cap)

/-- A verb invocation: which of the five verbs, with the expected values of
`Equals`. -/
inductive Verb where
  | Equals (args : List GoValue)
  | IsNil
  | IsNotNil
  | IsTrue
  | IsFalse

/-- Running a verb on a context. -/
def Verb.run (v : Verb) (p : Assert) (stack : List Frame) (w : World) : Outcome :=
  match v with
  | .Equals args => p.Equals args stack w
  | .IsNil => p.IsNil stack w
  | .IsNotNil => p.IsNotNil stack w
  | .IsTrue => p.IsTrue stack w
  | .IsFalse => p.IsFalse stack w

/-- The failures a verb invocation finds on the captured values `cap`: the
guard failure when nothing was captured or the lengths differ, otherwise the
violating positions. -/
def Verb.failures (v : Verb) (cap : List GoValue) : List String :=
  if cap.length < 1 then ["arguments is empty"]
  else
    match v with
    | .Equals args =>
      if cap.length ≠ args.length then ["arguments length not match"]
      else equalsFailures cap args
    | .IsNil => isNilFailures cap
    | .IsNotNil => isNotNilFailures cap
    | .IsTrue => isTrueFailures cap
    | .IsFalse => isFalseFailures cap

/-- The captured map of the test suite, `map[int]interface{}{3: "OK", 4: []byte(nil)}`. -/
def mapWithNilBytes : GoValue :=
  .map .int .iface 1 [(.int 3, .string "OK"), (.int 4, .nilSlice .uint8)]

/-- The expected map of the test suite, `map[int]interface{}{3: "OK", 4: nil}`. -/
def mapWithNil : GoValue :=
  .map .int .iface 2 [(.int 3, .string "OK"), (.int 4, .nil)]

/-- The kinds on which `reflect.Value.IsNil` panics: booleans, integers,
`uintptr`, strings and structs. -/
def nonNilableKind : GoValue → Bool
  | .bool _ => true
  | .int _ => true
  | .int64 _ => true
  | .uint8 _ => true
  | .uintptr _ => true
  | .string _ => true
  | .struct _ _ => true
  | _ => false

/-! ## Vocabulary for indentation, decimal digits and well-formed maps -/

/-- Segments joined again with a newline between neighbours. -/
def joinNewline : List String → String
  | [] => ""
  | [s] => s
  | s :: t :: rest => s ++ "\n" ++ joinNewline (t :: rest)

/-- The segment at index `i` of `n` segments as the specification indents it:
prefixed, except a last segment that is empty and is not also the first. -/
def indentSegment (pfx : String) (n i : Nat) (v : String) : String :=
  if v = "" ∧ i ≠ 0 ∧ i + 1 = n then "" else pfx ++ v

/-- The segments from index `i` on, indented. -/
def indentSegmentsFrom (pfx : String) (n : Nat) : Nat → List String → List String
  | _, [] => []
  | i, v :: rest => indentSegment pfx n i v :: indentSegmentsFrom pfx n (i + 1) rest

/-- The indentation of the specification: split on newlines, indent each
segment, join with newlines. -/
def indentEachLine (text pfx : String) : String :=
  joinNewline (indentSegmentsFrom pfx (Split text).length 0 (Split text))

/-- The value of a decimal digit character. -/
def digitVal (c : Char) : Nat := c.toNat - 48

/-- The number a list of decimal digits writes, continuing from `acc`. -/
def decodeDigits (acc : Nat) (cs : List Char) : Nat :=
  cs.foldl (fun a c => 10 * a + digitVal c) acc

/-- The keys of a map's entries are pairwise different under Go's `==`. -/
def keysDistinct : List (GoValue × GoValue) → Bool
  | [] => true
  | e :: rest => rest.all (fun e2 => !keyEq e.1 e2.1) && keysDistinct rest

mutual
/-- A value is well formed when every map inside it, at any depth of pointer
targets, slice elements, struct fields and map values, has pairwise different
keys, as every Go map has. -/
def WellFormed : GoValue → Bool
  | .ptr _ _ x => WellFormed x
  | .slice _ _ xs => WellFormedElems xs
  | .map _ _ _ m => keysDistinct m && WellFormedEntries m
  | .struct _ fs => WellFormedElems fs
  | _ => true
/-- Every value of a sequence is well formed. -/
def WellFormedElems : List GoValue → Bool
  | [] => true
  | x :: xs => WellFormed x && WellFormedElems xs
/-- Every value stored in the entries of a map is well formed. -/
def WellFormedEntries : List (GoValue × GoValue) → Bool
  | [] => true
  | (_, x) :: rest => WellFormed x && WellFormedEntries rest
end

/-! ## `Equals` over any deep equality and rendering -/

/-- One iteration of the loop of `Equals`, with the two library functions it
calls taken as given: `deepEqual` is `reflect.DeepEqual` and `typeValue v` is
`fmt.Sprintf("%T(%v)", v, v)`, whatever the Go runtime makes them. -/
def Assert.EqualsBodyWith (deepEqual : GoValue → GoValue → Bool) (typeValue : GoValue → String)
    (p : Assert) (args : List GoValue) (stack : List Frame) (i : Nat) (w : World) : Outcome :=
  match p.args.get? i, args.get? i with
  | some a, some e =>
    let report := p.fail (⟨"assert.go", 115⟩ :: stack)
      (convertOrdinalToString (toUint (i + 1)) ++ " argument does not equal\n\twant:\n" ++
        addPrefixPerLine (typeValue e) "\t" ++ "\n\tgot:\n" ++
        addPrefixPerLine (typeValue a) "\t") w
    if deepEqual a e then .returned w
    else
      match isNil a with
      | .error msg => .panicked w msg
      | .ok false => report
      | .ok true =>
        match isNil e with
        | .error msg => .panicked w msg
        | .ok false => report
        | .ok true => .returned w
  | _, _ => .panicked w "index out of range"

/-- The method `Equals` with `reflect.DeepEqual` and `fmt.Sprintf("%T(%v)")`
taken as given; `Assert.Equals` is this method with the modelled ones. -/
def Assert.EqualsWith (deepEqual : GoValue → GoValue → Bool) (typeValue : GoValue → String)
    (p : Assert) (args : List GoValue) (stack : List Frame) (w : World) : Outcome :=
  if p.args.length < 1 then
    p.fail (⟨"assert.go", 108⟩ :: stack) "arguments is empty" w
  else if p.args.length ≠ args.length then
    p.fail (⟨"assert.go", 110⟩ :: stack) "arguments length not match" w
  else
    forLoop (p.EqualsBodyWith deepEqual typeValue args stack) p.args.length 0 w

/-- A pair captured/expected violates `Equals` under a given deep equality:
not deep-equal and not both nil-like. -/
def equalsViolationWith (deepEqual : GoValue → GoValue → Bool) (a e : GoValue) : Bool :=
  !deepEqual a e && !(isNilLike a && isNilLike e)

/-- The reason `Equals` gives for the 1-based position `pos` under a given
rendering `typeValue`: want is the expected value, got the captured one. -/
def equalsReasonWith (typeValue : GoValue → String) (pos : Nat) (a e : GoValue) : String :=
  convertOrdinalToString (toUint pos) ++ " argument does not equal\n\twant:\n" ++
    addPrefixPerLine (typeValue e) "\t" ++ "\n\tgot:\n" ++
    addPrefixPerLine (typeValue a) "\t"

/-- The failure of `Equals` at the 0-based index `i`, if that pair violates. -/
def equalsFailureAtWith (deepEqual : GoValue → GoValue → Bool) (typeValue : GoValue → String)
    (cap exp : List GoValue) (i : Nat) : Option String :=
  match cap.get? i, exp.get? i with
  | some a, some e =>
    if equalsViolationWith deepEqual a e then some (equalsReasonWith typeValue (i + 1) a e)
    else none
  | _, _ => none

/-- The failures of `Equals`, one per violating position, in ascending order. -/
def equalsFailuresWith (deepEqual : GoValue → GoValue → Bool) (typeValue : GoValue → String)
    (cap exp : List GoValue) : List String :=
  (List.range cap.length).filterMap (equalsFailureAtWith deepEqual typeValue cap exp)

/-- Running a verb, `Equals` with the two library functions taken as given. -/
def Verb.runWith (deepEqual : GoValue → GoValue → Bool) (typeValue : GoValue → String)
    (v : Verb) (p : Assert) (stack : List Frame) (w : World) : Outcome :=
  match v with
  | .Equals args => p.EqualsWith deepEqual typeValue args stack w
  | .IsNil => p.IsNil stack w
  | .IsNotNil => p.IsNotNil stack w
  | .IsTrue => p.IsTrue stack w
  | .IsFalse => p.IsFalse stack w

/-- The failures a verb invocation finds on the captured values `cap`, under a
given deep equality and rendering: the guard failure when nothing was captured
or the lengths differ, otherwise the violating positions. -/
def Verb.failuresWith (deepEqual : GoValue → GoValue → Bool) (typeValue : GoValue → String)
    (v : Verb) (cap : List GoValue) : List String :=
  if cap.length < 1 then ["arguments is empty"]
  else
    match v with
    | .Equals args =>
      if cap.length ≠ args.length then ["arguments length not match"]
      else equalsFailuresWith deepEqual typeValue cap args
    | .IsNil => isNilFailures cap
    | .IsNotNil => isNotNilFailures cap
    | .IsTrue => isTrueFailures cap
    | .IsFalse => isFalseFailures cap

/-! ## Lemmas on reporting and on the loop -/

theorem concatAll_append (xs ys : List String) :
    concatAll (xs ++ ys) = concatAll xs ++ concatAll ys := by
  induction xs with
  | nil => simp [concatAll]
  | cons x xs ih => simp [concatAll, ih, String.append_assoc]

theorem reported_nil (w : World) (r : Reporter) (loc : String) :
    w.reported r loc [] = w := by
  cases w
  simp [World.reported, concatAll]

theorem reported_append (w : World) (r : Reporter) (loc : String) (xs ys : List String) :
    (w.reported r loc xs).reported r loc ys = w.reported r loc (xs ++ ys) := by
  have hrep : List.replicate (xs.length + ys.length) r =
      List.replicate xs.length r ++ List.replicate ys.length r :=
    List.replicate_add xs.length ys.length r
  simp only [World.reported, List.map_append, concatAll_append, String.append_assoc,
    List.length_append, List.append_assoc, hrep]

theorem getFileLine_two (f g : Frame) (stack : List Frame) :
    getFileLine (f :: g :: stack) 2 = callerLocation stack := by
  have h : wrapInt (toInt 2 + 1) = 3 := by decide
  cases stack <;> simp [getFileLine, runtimeCaller, callerLocation, h]

theorem fail_reporter (p : Assert) (r : Reporter) (f : Frame) (stack : List Frame)
    (reason : String) (w : World) (ht : p.t = some r) :
    p.fail (f :: stack) reason w = .returned (w.reported r (callerLocation stack) [reason]) := by
  simp [Assert.fail, ht, getFileLine_two, World.reported, concatAll, failureRecord]

theorem isNil_eq (v : GoValue) : isNil v = .ok (isNilLike v) := by
  cases v <;> rfl

theorem forLoop_reported (body : Nat → World → Outcome) (r : Reporter) (loc : String)
    (failureAt : Nat → Option String) (n : Nat)
    (hbody : ∀ i w, i < n → body i w = .returned (w.reported r loc (failureAt i).toList)) :
    ∀ k i w, i + k ≤ n →
      forLoop body k i w = .returned (w.reported r loc ((List.range' i k).filterMap failureAt)) := by
  intro k
  induction k with
  | zero =>
    intro i w _
    simp [forLoop, reported_nil]
  | succ k ih =>
    intro i w hik
    have hi : i < n := by omega
    rw [forLoop, hbody i w hi]
    simp only []
    rw [ih (i + 1) _ (by omega), reported_append, List.range'_succ]
    cases h : failureAt i <;> simp [List.filterMap_cons, h]

theorem EqualsBody_reported (p : Assert) (r : Reporter) (args : List GoValue)
    (stack : List Frame) (ht : p.t = some r) (hlen : args.length = p.args.length)
    (i : Nat) (w : World) (hi : i < p.args.length) :
    p.EqualsBody args stack i w =
      .returned (w.reported r (callerLocation stack) (equalsFailureAt p.args args i).toList) := by
  have hi2 : i < args.length := by omega
  obtain ⟨a, ha⟩ : ∃ a, p.args.get? i = some a := ⟨_, List.get?_eq_get hi⟩
  obtain ⟨e, he⟩ : ∃ e, args.get? i = some e := ⟨_, List.get?_eq_get hi2⟩
  simp only [Assert.EqualsBody, equalsFailureAt, ha, he, isNil_eq,
    fail_reporter p r _ stack _ w ht, equalsViolation, equalsReason]
  cases DeepEqual a e <;> cases isNilLike a <;> cases isNilLike e <;> simp [reported_nil]

theorem IsNilBody_reported (p : Assert) (r : Reporter) (stack : List Frame)
    (ht : p.t = some r) (i : Nat) (w : World) (hi : i < p.args.length) :
    p.IsNilBody stack i w = .returned (w.reported r (callerLocation stack)
      (isNilFailureAt p.args i).toList) := by
  obtain ⟨a, ha⟩ : ∃ a, p.args.get? i = some a := ⟨_, List.get?_eq_get hi⟩
  simp only [Assert.IsNilBody, isNilFailureAt, predicateFailureAt, ha, isNil_eq, fail_reporter p r _ stack _ w ht]
  by_cases h : isNilLike a = true <;> simp [h, reported_nil]

theorem IsNotNilBody_reported (p : Assert) (r : Reporter) (stack : List Frame)
    (ht : p.t = some r) (i : Nat) (w : World) (hi : i < p.args.length) :
    p.IsNotNilBody stack i w = .returned (w.reported r (callerLocation stack)
      (isNotNilFailureAt p.args i).toList) := by
  obtain ⟨a, ha⟩ : ∃ a, p.args.get? i = some a := ⟨_, List.get?_eq_get hi⟩
  simp only [Assert.IsNotNilBody, isNotNilFailureAt, predicateFailureAt, ha, isNil_eq, fail_reporter p r _ stack _ w ht]
  by_cases h : isNilLike a = true <;> simp [h, reported_nil]

theorem not_eqBool (b : Bool) (v : GoValue) : (!eqBool v b) = notTheBoolean b v := by
  cases v <;> simp [eqBool, notTheBoolean, bne]

theorem IsTrueBody_reported (p : Assert) (r : Reporter) (stack : List Frame)
    (ht : p.t = some r) (i : Nat) (w : World) (hi : i < p.args.length) :
    p.IsTrueBody stack i w = .returned (w.reported r (callerLocation stack)
      (isTrueFailureAt p.args i).toList) := by
  obtain ⟨a, ha⟩ : ∃ a, p.args.get? i = some a := ⟨_, List.get?_eq_get hi⟩
  simp only [Assert.IsTrueBody, isTrueFailureAt, predicateFailureAt, ha, not_eqBool, fail_reporter p r _ stack _ w ht]
  cases notTheBoolean true a <;> simp [reported_nil]

theorem IsFalseBody_reported (p : Assert) (r : Reporter) (stack : List Frame)
    (ht : p.t = some r) (i : Nat) (w : World) (hi : i < p.args.length) :
    p.IsFalseBody stack i w = .returned (w.reported r (callerLocation stack)
      (isFalseFailureAt p.args i).toList) := by
  obtain ⟨a, ha⟩ : ∃ a, p.args.get? i = some a := ⟨_, List.get?_eq_get hi⟩
  simp only [Assert.IsFalseBody, isFalseFailureAt, predicateFailureAt, ha, not_eqBool, fail_reporter p r _ stack _ w ht]
  cases notTheBoolean false a <;> simp [reported_nil]

theorem Equals_reported (p : Assert) (r : Reporter) (args : List GoValue)
    (stack : List Frame) (w : World) (ht : p.t = some r) (hcap : 1 ≤ p.args.length)
    (hlen : args.length = p.args.length) :
    p.Equals args stack w =
      .returned (w.reported r (callerLocation stack) (equalsFailures p.args args)) := by
  have h1 : ¬ p.args.length < 1 := by omega
  simp only [Assert.Equals, h1, hlen, if_false, ne_eq, not_true_eq_false, equalsFailures,
    List.range_eq_range']
  exact forLoop_reported _ r _ _ p.args.length
    (fun i w hi => EqualsBody_reported p r args stack ht hlen i w hi) _ 0 w (by omega)

theorem IsNil_reported (p : Assert) (r : Reporter) (stack : List Frame) (w : World)
    (ht : p.t = some r) (hcap : 1 ≤ p.args.length) :
    p.IsNil stack w = .returned (w.reported r (callerLocation stack) (isNilFailures p.args)) := by
  have h1 : ¬ p.args.length < 1 := by omega
  simp only [Assert.IsNil, h1, if_false, isNilFailures, List.range_eq_range']
  exact forLoop_reported _ r _ _ p.args.length
    (fun i w hi => IsNilBody_reported p r stack ht i w hi) _ 0 w (by omega)

theorem IsNotNil_reported (p : Assert) (r : Reporter) (stack : List Frame) (w : World)
    (ht : p.t = some r) (hcap : 1 ≤ p.args.length) :
    p.IsNotNil stack w =
      .returned (w.reported r (callerLocation stack) (isNotNilFailures p.args)) := by
  have h1 : ¬ p.args.length < 1 := by omega
  simp only [Assert.IsNotNil, h1, if_false, isNotNilFailures,
    List.range_eq_range']
  exact forLoop_reported _ r _ _ p.args.length
    (fun i w hi => IsNotNilBody_reported p r stack ht i w hi) _ 0 w (by omega)

theorem IsTrue_reported (p : Assert) (r : Reporter) (stack : List Frame) (w : World)
    (ht : p.t = some r) (hcap : 1 ≤ p.args.length) :
    p.IsTrue stack w = .returned (w.reported r (callerLocation stack) (isTrueFailures p.args)) := by
  have h1 : ¬ p.args.length < 1 := by omega
  simp only [Assert.IsTrue, h1, if_false, isTrueFailures,
    List.range_eq_range']
  exact forLoop_reported _ r _ _ p.args.length
    (fun i w hi => IsTrueBody_reported p r stack ht i w hi) _ 0 w (by omega)

theorem IsFalse_reported (p : Assert) (r : Reporter) (stack : List Frame) (w : World)
    (ht : p.t = some r) (hcap : 1 ≤ p.args.length) :
    p.IsFalse stack w =
      .returned (w.reported r (callerLocation stack) (isFalseFailures p.args)) := by
  have h1 : ¬ p.args.length < 1 := by omega
  simp only [Assert.IsFalse, h1, if_false, isFalseFailures,
    List.range_eq_range']
  exact forLoop_reported _ r _ _ p.args.length
    (fun i w hi => IsFalseBody_reported p r stack ht i w hi) _ 0 w (by omega)

theorem Verb_run_reported (v : Verb) (p : Assert) (r : Reporter) (stack : List Frame)
    (w : World) (ht : p.t = some r) :
    v.run p stack w = .returned (w.reported r (callerLocation stack) (v.failures p.args)) := by
  by_cases h0 : p.args.length < 1
  · cases v <;>
      simp [Verb.run, Verb.failures, h0, Assert.Equals, Assert.IsNil, Assert.IsNotNil,
        Assert.IsTrue, Assert.IsFalse, fail_reporter p r _ stack _ w ht]
  · have hcap : 1 ≤ p.args.length := by omega
    cases v with
    | Equals args =>
      by_cases hl : p.args.length = args.length
      · have h0a : ¬ args.length < 1 := by omega
        have hf : (Verb.Equals args).failures p.args = equalsFailures p.args args := by
          simp [Verb.failures, h0, h0a, hl]
        rw [hf]
        exact Equals_reported p r args stack w ht hcap hl.symm
      · simp [Verb.run, Verb.failures, h0, hl, Assert.Equals, fail_reporter p r _ stack _ w ht]
    | IsNil => simpa [Verb.run, Verb.failures, h0] using IsNil_reported p r stack w ht hcap
    | IsNotNil => simpa [Verb.run, Verb.failures, h0] using IsNotNil_reported p r stack w ht hcap
    | IsTrue => simpa [Verb.run, Verb.failures, h0] using IsTrue_reported p r stack w ht hcap
    | IsFalse => simpa [Verb.run, Verb.failures, h0] using IsFalse_reported p r stack w ht hcap

theorem reported_ne (w : World) (r : Reporter) (loc reason : String) :
    Outcome.returned (w.reported r loc [reason]) ≠ Outcome.returned w := by
  intro h
  have hs : (w.reported r loc [reason]).signals.length = w.signals.length := by
    rw [Outcome.returned.inj h]
  simp [World.reported] at hs

theorem DeepEqualEntries_cons (k x : GoValue) (rest m2 : List (GoValue × GoValue)) :
    DeepEqualEntries ((k, x) :: rest) m2 =
      ((match MapIndex m2 k with
        | some y => DeepEqual x y
        | none => false) && DeepEqualEntries rest m2) := rfl

theorem DeepEqualEntries_false (m1 m2 : List (GoValue × GoValue)) (key x y : GoValue)
    (hx : (key, x) ∈ m1) (hy : MapIndex m2 key = some y) (hxy : DeepEqual x y = false) :
    DeepEqualEntries m1 m2 = false := by
  induction m1 with
  | nil => cases hx
  | cons entry rest ih =>
    obtain ⟨k, v⟩ := entry
    rw [DeepEqualEntries_cons]
    rcases List.mem_cons.mp hx with h | h
    · obtain ⟨hk, hv⟩ := Prod.mk.inj h
      subst hk
      subst hv
      rw [hy]
      simp only [hxy, Bool.false_and]
    · rw [ih h, Bool.and_false]

theorem DeepEqual_map (k1 e1 k2 e2 : GoType) (a1 a2 : Nat) (m1 m2 : List (GoValue × GoValue)) :
    DeepEqual (.map k1 e1 a1 m1) (.map k2 e2 a2 m2) =
      (k1 == k2 && e1 == e2 && m1.length == m2.length &&
        (a1 == a2 || DeepEqualEntries m1 m2)) := rfl

theorem Equals_single (r : Reporter) (a e : GoValue) (stack : List Frame) (w : World) :
    (New (some r) [a]).Equals [e] stack w =
      .returned (w.reported r (callerLocation stack)
        (if equalsViolation a e then [equalsReason 1 a e] else [])) := by
  rw [Equals_reported (New (some r) [a]) r [e] stack w rfl (by simp [New]) (by simp [New])]
  cases h : equalsViolation a e <;>
    simp [New, equalsFailures, equalsFailureAt, List.range_succ, h]

theorem equalsReason_want_nil (a : GoValue) :
    equalsReason 1 a .nil =
      "1st argument does not equal\n\twant:\n\t<nil>(<nil>)\n\tgot:\n" ++
        addPrefixPerLine (sprintfTypeValue a) "\t" := by
  have h : convertOrdinalToString (toUint 1) ++ " argument does not equal\n\twant:\n" ++
      addPrefixPerLine (sprintfTypeValue .nil) "\t" ++ "\n\tgot:\n" =
      "1st argument does not equal\n\twant:\n\t<nil>(<nil>)\n\tgot:\n" := by decide
  rw [equalsReason, h]

theorem Equals_single_suppressed (r : Reporter) (a e : GoValue) (stack : List Frame)
    (w : World) (h : equalsViolation a e = false) :
    (New (some r) [a]).Equals [e] stack w = .returned w := by
  rw [Equals_single, h]
  simp [reported_nil]

theorem Equals_single_reported (r : Reporter) (a e : GoValue) (stack : List Frame)
    (w : World) (h : equalsViolation a e = true) :
    (New (some r) [a]).Equals [e] stack w =
      .returned (w.reported r (callerLocation stack) [equalsReason 1 a e]) := by
  rw [Equals_single, h]
  simp

theorem filterMap_length_complement {α β γ : Type} (f : α → Option β) (g : α → Option γ)
    (l : List α) (h : ∀ x ∈ l, (f x).isSome = !(g x).isSome) :
    (l.filterMap f).length + (l.filterMap g).length = l.length := by
  induction l with
  | nil => rfl
  | cons x rest ih =>
    have hrest := ih (fun y hy => h y (List.mem_cons_of_mem x hy))
    have hx := h x (List.mem_cons_self x rest)
    cases hf : f x <;> cases hg : g x <;> simp [hf, hg] at hx <;>
      simp [List.filterMap_cons, hf, hg] <;> omega

theorem predicateFailureAt_get (violates : GoValue → Bool) (what : String)
    (cap : List GoValue) (i : Nat) (a : GoValue) (ha : cap.get? i = some a) :
    predicateFailureAt violates what cap i =
      if violates a then some (convertOrdinalToString (toUint (i + 1)) ++ what) else none := by
  simp only [predicateFailureAt, ha]

theorem notTheBoolean_iff (b : Bool) (v : GoValue) :
    notTheBoolean b v = true ↔ v ≠ .bool b := by
  cases v <;> simp [notTheBoolean]

/-! ## Lemmas on indentation, decimal digits and symmetry -/

theorem forLoop_unchanged (body : Nat → World → Outcome) (n : Nat)
    (hbody : ∀ i w, i < n → body i w = .returned w) :
    ∀ k i w, i + k ≤ n → forLoop body k i w = .returned w := by
  intro k
  induction k with
  | zero => intro i w _; rfl
  | succ k ih =>
    intro i w hik
    rw [forLoop, hbody i w (by omega)]
    exact ih (i + 1) w (by omega)

theorem push_newline (sb : String) : sb.push '\n' = sb ++ "\n" := rfl

theorem joinNewline_cons (s : String) (rest : List String) :
    joinNewline (s :: rest) = s ++ concatAll (rest.map (fun v => "\n" ++ v)) := by
  induction rest generalizing s with
  | nil => simp [joinNewline, concatAll]
  | cons t rest ih =>
    rw [joinNewline, ih t]
    simp [concatAll, String.append_assoc]

theorem addPrefixPerLineLoop_rest (pfx : String) (n : Nat) (rest : List String) :
    ∀ (idx : Nat) (sb : String),
      addPrefixPerLineLoop pfx n rest idx false sb =
        sb ++ concatAll ((indentSegmentsFrom pfx n idx rest).map (fun v => "\n" ++ v)) := by
  induction rest with
  | nil => intro idx sb; simp [addPrefixPerLineLoop, indentSegmentsFrom, concatAll]
  | cons v rest ih =>
    intro idx sb
    rw [addPrefixPerLineLoop]
    simp only [Bool.false_eq_true, if_false]
    rw [ih]
    simp only [indentSegmentsFrom, List.map_cons, concatAll, indentSegment, push_newline]
    by_cases h : v = "" ∧ idx ≠ 0 ∧ idx + 1 = n
    · have h2 : ¬ (v ≠ "" ∨ idx = 0 ∨ (idx : Int) ≠ (n : Int) - 1) := by
        obtain ⟨h1, h3, h4⟩ := h
        intro hh
        rcases hh with hh | hh | hh
        · exact hh h1
        · exact h3 hh
        · apply hh; omega
      rw [if_neg h2, if_pos h]
      simp only [String.append_assoc, String.empty_append]
    · have h2 : (v ≠ "" ∨ idx = 0 ∨ (idx : Int) ≠ (n : Int) - 1) := by
        by_contra hh
        push_neg at hh
        apply h
        refine ⟨hh.1, hh.2.1, ?_⟩
        have := hh.2.2
        omega
      rw [if_pos h2, if_neg h]
      simp only [String.append_assoc]

theorem addPrefixPerLineLoop_first (pfx : String) (n : Nat) (segs : List String) :
    addPrefixPerLineLoop pfx n segs 0 true "" = joinNewline (indentSegmentsFrom pfx n 0 segs) := by
  cases segs with
  | nil => rfl
  | cons v rest =>
    rw [addPrefixPerLineLoop]
    simp only [if_true, ne_eq, true_or, or_true]
    rw [addPrefixPerLineLoop_rest, indentSegmentsFrom, joinNewline_cons]
    simp [indentSegment, String.append_assoc]

theorem addPrefixPerLine_eq (text pfx : String) :
    addPrefixPerLine text pfx = indentEachLine text pfx :=
  addPrefixPerLineLoop_first pfx _ _

theorem splitNewline_ne_nil (cs : List Char) : splitNewline cs ≠ [] := by
  cases cs with
  | nil => simp [splitNewline]
  | cons c cs =>
    rw [splitNewline]
    split
    · simp
    · split <;> simp

theorem joinNewline_split (cs : List Char) :
    joinNewline ((splitNewline cs).map String.mk) = String.mk cs := by
  induction cs with
  | nil => rfl
  | cons c cs ih =>
    rw [splitNewline]
    by_cases hc : c = '\n'
    · simp only [hc, if_true, List.map_cons]
      obtain ⟨seg, segs, hs⟩ := List.exists_cons_of_ne_nil (splitNewline_ne_nil cs)
      rw [hs] at ih ⊢
      simp only [List.map_cons] at ih ⊢
      rw [joinNewline, ih]
      rfl
    · simp only [hc, if_false]
      obtain ⟨seg, segs, hs⟩ := List.exists_cons_of_ne_nil (splitNewline_ne_nil cs)
      rw [hs] at ih ⊢
      simp only [List.map_cons] at ih ⊢
      rw [joinNewline_cons] at ih ⊢
      have : String.mk (c :: seg) = String.mk [c] ++ String.mk seg := rfl
      rw [this, String.append_assoc, ih]
      rfl

theorem indentSegmentsFrom_empty (n : Nat) (l : List String) :
    ∀ i, indentSegmentsFrom "" n i l = l := by
  induction l with
  | nil => intro i; rfl
  | cons v rest ih =>
    intro i
    rw [indentSegmentsFrom, ih]
    congr 1
    rw [indentSegment]
    split
    · rename_i h; exact h.1.symm
    · exact String.empty_append v

theorem splitNewline_append_newline (cs : List Char) :
    splitNewline (cs ++ ['\n']) = splitNewline cs ++ [[]] := by
  induction cs with
  | nil => rfl
  | cons c cs ih =>
    rw [List.cons_append, splitNewline, splitNewline, ih]
    by_cases hc : c = '\n'
    · simp [hc]
    · simp only [hc, if_false]
      obtain ⟨seg, segs, hs⟩ := List.exists_cons_of_ne_nil (splitNewline_ne_nil cs)
      rw [hs]
      rfl

theorem splitNewline_getLast (cs : List Char) (h : (splitNewline cs).getLast? = some []) :
    cs = [] ∨ cs.getLast? = some '\n' := by
  induction cs with
  | nil => exact Or.inl rfl
  | cons c cs ih =>
    right
    rw [splitNewline] at h
    obtain ⟨seg, segs, hs⟩ := List.exists_cons_of_ne_nil (splitNewline_ne_nil cs)
    by_cases hc : c = '\n'
    · simp only [hc, if_true, hs, List.getLast?_cons_cons] at h
      rw [← hs] at h
      rcases ih h with h0 | h1
      · rw [h0, hc]; rfl
      · cases cs with
        | nil => cases h1
        | cons d ds => rw [List.getLast?_cons_cons]; exact h1
    · simp only [hc, if_false, hs] at h
      cases segs with
      | nil => simp at h
      | cons seg2 segs2 =>
        rw [List.getLast?_cons_cons] at h
        rw [hs, List.getLast?_cons_cons] at ih
        rcases ih h with h0 | h1
        · rw [h0] at hs; simp [splitNewline] at hs
        · cases cs with
          | nil => cases h1
          | cons d ds => rw [List.getLast?_cons_cons]; exact h1

theorem splitNewline_no_newline (cs : List Char) (h : '\n' ∉ cs) : splitNewline cs = [cs] := by
  induction cs with
  | nil => rfl
  | cons c cs ih =>
    have hc : c ≠ '\n' := fun hc => h (by simp [hc])
    have hcs : '\n' ∉ cs := fun hm => h (List.mem_cons_of_mem c hm)
    rw [splitNewline, ih hcs]
    simp [hc]

theorem indentSegmentsFrom_inner (pfx : String) (n : Nat) (l : List String) :
    ∀ i, i + l.length < n → indentSegmentsFrom pfx n i l = l.map (fun v => pfx ++ v) := by
  induction l with
  | nil => intro i _; rfl
  | cons v rest ih =>
    intro i hi
    simp only [List.length_cons] at hi
    rw [indentSegmentsFrom, ih (i + 1) (by omega), List.map_cons, indentSegment]
    have h : ¬ (v = "" ∧ i ≠ 0 ∧ i + 1 = n) := fun hh => by omega
    rw [if_neg h]

theorem indentSegmentsFrom_to_end (pfx : String) (n : Nat) (l : List String)
    (hlast : l.getLast? ≠ some "" ∨ n ≤ 1) :
    ∀ i, i + l.length = n → indentSegmentsFrom pfx n i l = l.map (fun v => pfx ++ v) := by
  induction l with
  | nil => intro i _; rfl
  | cons v rest ih =>
    intro i hi
    simp only [List.length_cons] at hi
    have hv : ¬ (v = "" ∧ i ≠ 0 ∧ i + 1 = n) := by
      rintro ⟨h1, h2, h3⟩
      have hrest : rest = [] := List.eq_nil_of_length_eq_zero (by omega)
      rcases hlast with hl | hl
      · apply hl
        rw [hrest, h1]
        rfl
      · omega
    have hlast2 : rest.getLast? ≠ some "" ∨ n ≤ 1 := by
      rcases hlast with hl | hl
      · cases rest with
        | nil => left; simp
        | cons t ts => left; rwa [List.getLast?_cons_cons] at hl
      · exact Or.inr hl
    rw [indentSegmentsFrom, ih hlast2 (i + 1) (by omega), List.map_cons, indentSegment, if_neg hv]

theorem indentSegmentsFrom_append (pfx : String) (n : Nat) (l1 l2 : List String) :
    ∀ i, indentSegmentsFrom pfx n i (l1 ++ l2) =
      indentSegmentsFrom pfx n i l1 ++ indentSegmentsFrom pfx n (i + l1.length) l2 := by
  induction l1 with
  | nil => intro i; rfl
  | cons v rest ih =>
    intro i
    rw [List.cons_append, indentSegmentsFrom, ih, indentSegmentsFrom, List.length_cons,
      List.cons_append]
    congr 3
    omega

theorem joinNewline_append_empty (l : List String) (hl : l ≠ []) :
    joinNewline (l ++ [""]) = joinNewline l ++ "\n" := by
  obtain ⟨s, rest, hs⟩ := List.exists_cons_of_ne_nil hl
  rw [hs, List.cons_append, joinNewline_cons, joinNewline_cons, List.map_append, concatAll_append]
  simp [concatAll, String.append_assoc]

theorem Split_append_newline (t : String) : Split (t ++ "\n") = Split t ++ [""] := by
  have h : (t ++ "\n").data = t.data ++ ['\n'] := rfl
  rw [Split, h, splitNewline_append_newline, List.map_append]
  rfl

theorem Split_ne_nil (t : String) : Split t ≠ [] := by
  rw [Split]
  intro h
  exact splitNewline_ne_nil t.data (List.map_eq_nil_iff.mp h)

theorem Split_getLast (t : String) (h : t.data.getLast? ≠ some '\n') :
    (Split t).getLast? ≠ some "" ∨ (Split t).length ≤ 1 := by
  by_cases h0 : t.data = []
  · right
    rw [Split, h0]
    simp [splitNewline]
  · left
    intro hl
    rw [Split, List.getLast?_map] at hl
    cases hg : (splitNewline t.data).getLast? with
    | none => rw [hg] at hl; cases hl
    | some seg =>
      rw [hg] at hl
      simp only [Option.map_some', Option.some.injEq] at hl
      have hseg : seg = [] := by
        have := congrArg String.data hl
        exact this
      rw [hseg] at hg
      rcases splitNewline_getLast t.data hg with h1 | h1
      · exact h0 h1
      · exact h h1

theorem addPrefixPerLine_append_newline (t pfx : String) (h : t.data.getLast? ≠ some '\n') :
    addPrefixPerLine (t ++ "\n") pfx = addPrefixPerLine t pfx ++ "\n" := by
  rw [addPrefixPerLine_eq, addPrefixPerLine_eq, indentEachLine, indentEachLine,
    Split_append_newline, indentSegmentsFrom_append, List.length_append, List.length_singleton,
    indentSegmentsFrom_inner pfx _ (Split t) 0 (by omega),
    indentSegmentsFrom_to_end pfx _ (Split t) (Split_getLast t h) 0 (by omega)]
  have hn : (Split t).length ≠ 0 := fun h0 => Split_ne_nil t (List.eq_nil_of_length_eq_zero h0)
  have hlast : indentSegmentsFrom pfx ((Split t).length + 1) (0 + (Split t).length) [""] = [""] := by
    rw [indentSegmentsFrom, indentSegmentsFrom, indentSegment]
    rw [if_pos ⟨rfl, by omega, by omega⟩]
  rw [hlast]
  exact joinNewline_append_empty _ (by
    intro h0
    exact Split_ne_nil t (List.map_eq_nil_iff.mp h0))

theorem addPrefixPerLine_no_newline (t pfx : String) (h : '\n' ∉ t.data) :
    addPrefixPerLine t pfx = pfx ++ t := by
  rw [addPrefixPerLine_eq, indentEachLine, Split, splitNewline_no_newline t.data h]
  have hi : indentSegment pfx 1 0 t = pfx ++ t := by
    rw [indentSegment, if_neg (fun hh => hh.2.1 rfl)]
  exact hi

theorem digitVal_digitChar (d : Nat) (h : d < 10) : digitVal (Nat.digitChar d) = d := by
  interval_cases d <;> rfl

theorem isDigit_digitChar (d : Nat) (h : d < 10) : (Nat.digitChar d).isDigit = true := by
  interval_cases d <;> rfl

theorem decodeDigits_toDigitsCore (fuel : Nat) :
    ∀ (n : Nat) (ds : List Char), n < fuel →
      decodeDigits 0 (Nat.toDigitsCore 10 fuel n ds) = decodeDigits n ds := by
  induction fuel with
  | zero => intro n ds h; omega
  | succ fuel ih =>
    intro n ds h
    rw [Nat.toDigitsCore]
    by_cases h0 : n / 10 = 0
    · simp only [h0, if_true]
      have hn : n % 10 = n := Nat.mod_eq_of_lt (by omega)
      have hd := digitVal_digitChar (n % 10) (Nat.mod_lt n (by omega))
      rw [hn] at hd
      simp only [decodeDigits, List.foldl_cons, hn, hd, Nat.mul_zero, Nat.zero_add]
    · simp only [h0, if_false]
      rw [ih (n / 10) _ (by omega)]
      simp only [decodeDigits, List.foldl_cons,
        digitVal_digitChar (n % 10) (Nat.mod_lt n (by omega))]
      congr 1
      omega

theorem decodeDigits_repr (n : Nat) : decodeDigits 0 (Nat.repr n).data = n := by
  have h := decodeDigits_toDigitsCore (n + 1) n [] (by omega)
  simpa [decodeDigits, Nat.repr, Nat.toDigits, List.asString] using h

theorem repr_injective (n m : Nat) (h : Nat.repr n = Nat.repr m) : n = m := by
  rw [← decodeDigits_repr n, ← decodeDigits_repr m, h]

theorem isDigit_toDigitsCore (fuel : Nat) :
    ∀ (n : Nat) (ds : List Char) (c : Char), c ∈ Nat.toDigitsCore 10 fuel n ds →
      c ∈ ds ∨ c.isDigit = true := by
  induction fuel with
  | zero => intro n ds c h; exact Or.inl h
  | succ fuel ih =>
    intro n ds c h
    rw [Nat.toDigitsCore] at h
    have hd := isDigit_digitChar (n % 10) (Nat.mod_lt n (by omega))
    by_cases h0 : n / 10 = 0
    · simp only [h0, if_true] at h
      rcases List.mem_cons.mp h with h1 | h1
      · right; rw [h1]; exact hd
      · exact Or.inl h1
    · simp only [h0, if_false] at h
      rcases ih _ _ c h with h1 | h1
      · rcases List.mem_cons.mp h1 with h2 | h2
        · right; rw [h2]; exact hd
        · exact Or.inl h2
      · exact Or.inr h1

theorem isDigit_repr (n : Nat) (c : Char) (h : c ∈ (Nat.repr n).data) : c.isDigit = true := by
  have h2 : c ∈ Nat.toDigitsCore 10 (n + 1) n [] := h
  rcases isDigit_toDigitsCore _ _ _ c h2 with h3 | h3
  · cases h3
  · exact h3

theorem append_right_cancel (a b c : String) (h : a ++ c = b ++ c) : a = b := by
  have h2 : a.data ++ c.data = b.data ++ c.data := congrArg String.data h
  exact String.ext (List.append_cancel_right h2)

theorem append_left_cancel (a b c : String) (h : c ++ a = c ++ b) : a = b := by
  have h2 : c.data ++ a.data = c.data ++ b.data := congrArg String.data h
  exact String.ext (List.append_cancel_left h2)

theorem Itoa_injective (i j : Int) (h : Itoa i = Itoa j) : i = j := by
  have hmix : ∀ (a b : Nat), Nat.repr a ≠ "-" ++ Nat.repr (b + 1) := by
    intro a b hab
    have hmem : '-' ∈ (Nat.repr a).data := by
      rw [hab]
      exact List.mem_cons_self _ _
    have := isDigit_repr a '-' hmem
    exact absurd this (by decide)
  cases i with
  | ofNat a =>
    cases j with
    | ofNat b => rw [repr_injective a b h]
    | negSucc b => exact absurd h (hmix a b)
  | negSucc a =>
    cases j with
    | ofNat b => exact absurd h.symm (hmix b a)
    | negSucc b =>
      have h2 := repr_injective _ _ (append_left_cancel _ _ "-" h)
      have h3 : a = b := by omega
      rw [h3]

theorem Itoa_chars (i : Int) (c : Char) (h : c ∈ (Itoa i).data) : c.isDigit = true ∨ c = '-' := by
  cases i with
  | ofNat a => exact Or.inl (isDigit_repr a c h)
  | negSucc a =>
    have h2 : c ∈ '-' :: (Nat.repr (a + 1)).data := h
    rcases List.mem_cons.mp h2 with h3 | h3
    · exact Or.inr h3
    · exact Or.inl (isDigit_repr _ c h3)

theorem toInt_injective (n m : Nat) (hn : n < 2 ^ 64) (hm : m < 2 ^ 64) (h : toInt n = toInt m) :
    n = m := by
  unfold toInt at h
  rw [Nat.mod_eq_of_lt hn, Nat.mod_eq_of_lt hm] at h
  split at h <;> split at h <;> omega

theorem th_ne_literal (s : String) :
    s ++ "th" ≠ "" ∧ s ++ "th" ≠ "1st" ∧ s ++ "th" ≠ "2nd" ∧ s ++ "th" ≠ "3rd" := by
  have hrev : ∀ t : String, s ++ "th" = t → t.data.reverse.head? = some 'h' := by
    intro t ht
    rw [← ht]
    have : (s ++ "th").data = s.data ++ ['t', 'h'] := rfl
    rw [this]
    simp
  refine ⟨?_, ?_, ?_, ?_⟩ <;> intro h <;> have := hrev _ h <;> revert this <;> decide

theorem convertOrdinalToString_big (n : Nat) (h0 : n ≠ 0) (h1 : n ≠ 1) (h2 : n ≠ 2) (h3 : n ≠ 3) :
    convertOrdinalToString n = Itoa (toInt n) ++ "th" := by
  simp [convertOrdinalToString, h0, h1, h2, h3]

theorem convertOrdinalToString_injective (n m : Nat) (hn : n < 2 ^ 64) (hm : m < 2 ^ 64)
    (h : convertOrdinalToString n = convertOrdinalToString m) : n = m := by
  by_cases hn4 : n < 4
  · by_cases hm4 : m < 4
    · interval_cases n <;> interval_cases m <;> first | rfl | (exact absurd h (by decide))
    · rw [convertOrdinalToString_big m (by omega) (by omega) (by omega) (by omega)] at h
      have hth := th_ne_literal (Itoa (toInt m))
      interval_cases n
      · exact absurd h.symm hth.1
      · exact absurd h.symm hth.2.1
      · exact absurd h.symm hth.2.2.1
      · exact absurd h.symm hth.2.2.2
  · rw [convertOrdinalToString_big n (by omega) (by omega) (by omega) (by omega)] at h
    by_cases hm4 : m < 4
    · have hth := th_ne_literal (Itoa (toInt n))
      interval_cases m
      · exact absurd h hth.1
      · exact absurd h hth.2.1
      · exact absurd h hth.2.2.1
      · exact absurd h hth.2.2.2
    · rw [convertOrdinalToString_big m (by omega) (by omega) (by omega) (by omega)] at h
      exact toInt_injective n m hn hm (Itoa_injective _ _ (append_right_cancel _ _ _ h))

theorem DeepEqualElems_cons (x y : GoValue) (xs ys : List GoValue) :
    DeepEqualElems (x :: xs) (y :: ys) = (DeepEqual x y && DeepEqualElems xs ys) := rfl

theorem DeepEqualElems_int (xs ys : List Int) (hlen : xs.length = ys.length)
    (h : DeepEqualElems (xs.map GoValue.int) (ys.map GoValue.int) = true) : xs = ys := by
  induction xs generalizing ys with
  | nil =>
    cases ys with
    | nil => rfl
    | cons y ys => cases hlen
  | cons x xs ih =>
    cases ys with
    | nil => cases hlen
    | cons y ys =>
      rw [List.map_cons, List.map_cons, DeepEqualElems_cons, Bool.and_eq_true] at h
      have hxy : x = y := by
        have h1 : (x == y) = true := h.1
        exact beq_iff_eq.mp h1
      rw [hxy, ih ys (by simpa using hlen) h.2]

theorem sprintfTypeValue_no_newline_int (n : Int) :
    '\n' ∉ (sprintfTypeValue (.int n)).data ∧ '\n' ∉ (sprintfTypeValue (.int64 n)).data := by
  have h1 : (sprintfTypeValue (.int n)).data = "int(".data ++ (Itoa n).data ++ ")".data := rfl
  have h2 : (sprintfTypeValue (.int64 n)).data = "int64(".data ++ (Itoa n).data ++ ")".data := rfl
  have hi : '\n' ∉ (Itoa n).data := by
    intro hm
    rcases Itoa_chars n '\n' hm with h | h
    · exact absurd h (by decide)
    · exact absurd h (by decide)
  rw [h1, h2]
  constructor <;>
  · intro hm
    rcases List.mem_append.mp hm with h | h
    · rcases List.mem_append.mp h with h | h
      · revert h; decide
      · exact hi h
    · revert h; decide

theorem equalsReason_int_int64 (n : Int) :
    equalsReason 1 (.int n) (.int64 n) =
      "1st argument does not equal\n\twant:\n\tint64(" ++ Itoa n ++ ")\n\tgot:\n\tint(" ++
        Itoa n ++ ")" := by
  have hs := sprintfTypeValue_no_newline_int n
  rw [equalsReason, addPrefixPerLine_no_newline _ _ hs.1, addPrefixPerLine_no_newline _ _ hs.2]
  have h1 : sprintfTypeValue (.int n) = "int(" ++ Itoa n ++ ")" := rfl
  have h2 : sprintfTypeValue (.int64 n) = "int64(" ++ Itoa n ++ ")" := rfl
  have h3 : convertOrdinalToString (toUint 1) = "1st" := by decide
  rw [h1, h2, h3]
  simp only [String.append_assoc]
  rfl

theorem keyEq_symm (a b : GoValue) : keyEq a b = keyEq b a := by
  cases a <;> cases b <;> first | rfl | simp only [keyEq, Bool.beq_comm]

theorem keyEq_trans (a b c : GoValue) (h1 : keyEq a b = true) (h2 : keyEq b c = true) :
    keyEq a c = true := by
  cases a <;> cases b <;> first | exact absurd h1 Bool.false_ne_true | skip
  all_goals
    cases c <;> first | exact absurd h2 Bool.false_ne_true | skip
  all_goals
    simp only [keyEq, beq_iff_eq, Bool.and_eq_true] at h1 h2 ⊢
  all_goals first | exact h1.trans h2 | exact ⟨h1.1.trans h2.1, h1.2.trans h2.2⟩

theorem keysDistinct_pairwise (m : List (GoValue × GoValue)) (h : keysDistinct m = true) :
    m.Pairwise (fun e1 e2 => keyEq e1.1 e2.1 = false) := by
  induction m with
  | nil => exact List.Pairwise.nil
  | cons e rest ih =>
    rw [keysDistinct, Bool.and_eq_true, List.all_eq_true] at h
    refine List.Pairwise.cons ?_ (ih h.2)
    intro e2 he2
    have := h.1 e2 he2
    simpa using this

theorem MapIndex_mem (m : List (GoValue × GoValue)) (k y : GoValue)
    (h : MapIndex m k = some y) : ∃ k2, (k2, y) ∈ m ∧ keyEq k k2 = true := by
  rw [MapIndex] at h
  cases hf : m.find? (fun e => keyEq k e.1) with
  | none => rw [hf] at h; cases h
  | some e =>
    rw [hf] at h
    have hy : e.2 = y := by simpa using h
    have hp : keyEq k e.1 = true :=
      @List.find?_some _ (fun e2 : GoValue × GoValue => keyEq k e2.1) e m hf
    refine ⟨e.1, ?_, hp⟩
    rw [← hy]
    exact List.mem_of_find?_eq_some hf

theorem MapIndex_unique (m : List (GoValue × GoValue)) (hd : keysDistinct m = true)
    (k k2 y : GoValue) (hmem : (k2, y) ∈ m) (hk : keyEq k k2 = true) :
    MapIndex m k = some y := by
  induction m with
  | nil => cases hmem
  | cons e rest ih =>
    rw [keysDistinct, Bool.and_eq_true, List.all_eq_true] at hd
    rcases List.mem_cons.mp hmem with h | h
    · rw [MapIndex, List.find?_cons, ← h]
      simp [hk]
    · have hne : keyEq k e.1 = false := by
        by_contra hc
        rw [Bool.not_eq_false] at hc
        have h1 : keyEq e.1 k2 = true := keyEq_trans _ _ _ ((keyEq_symm e.1 k).trans hc) hk
        have h2 := hd.1 (k2, y) h
        simp [h1] at h2
      have := ih hd.2 h
      rw [MapIndex] at this ⊢
      rw [List.find?_cons, hne]
      exact this

theorem DeepEqualEntries_iff (m1 m2 : List (GoValue × GoValue)) :
    DeepEqualEntries m1 m2 = true ↔
      ∀ k x, (k, x) ∈ m1 → ∃ y, MapIndex m2 k = some y ∧ DeepEqual x y = true := by
  induction m1 with
  | nil => simp [show DeepEqualEntries [] m2 = true from rfl]
  | cons e rest ih =>
    obtain ⟨k0, x0⟩ := e
    rw [DeepEqualEntries_cons, Bool.and_eq_true, ih]
    constructor
    · rintro ⟨h1, h2⟩ k x hmem
      rcases List.mem_cons.mp hmem with h | h
      · obtain ⟨hk, hx⟩ := Prod.mk.inj h
        subst hk; subst hx
        cases hm : MapIndex m2 k with
        | none => rw [hm] at h1; cases h1
        | some y => rw [hm] at h1; exact ⟨y, rfl, h1⟩
      · exact h2 k x h
    · intro h
      refine ⟨?_, fun k x hmem => h k x (List.mem_cons_of_mem _ hmem)⟩
      obtain ⟨y, hy, hxy⟩ := h k0 x0 (List.mem_cons_self _ _)
      rw [hy]
      exact hxy

theorem DeepEqualEntries_symm (m1 m2 : List (GoValue × GoValue))
    (hsym : ∀ k x, (k, x) ∈ m1 → ∀ k2 y, (k2, y) ∈ m2 →
      DeepEqual x y = true → DeepEqual y x = true)
    (hd1 : keysDistinct m1 = true)
    (hlen : m1.length = m2.length) (h : DeepEqualEntries m1 m2 = true) :
    DeepEqualEntries m2 m1 = true := by
  rw [DeepEqualEntries_iff] at h ⊢
  have hp1 := keysDistinct_pairwise m1 hd1
  have hex : ∀ i : Fin m1.length, ∃ j : Fin m2.length,
      keyEq (m1.get i).1 (m2.get j).1 = true ∧ DeepEqual (m1.get i).2 (m2.get j).2 = true := by
    intro i
    obtain ⟨y, hy, hxy⟩ := h (m1.get i).1 (m1.get i).2 (List.get_mem m1 i.1 i.2)
    obtain ⟨k2, hmem, hk⟩ := MapIndex_mem m2 _ y hy
    obtain ⟨j, hj⟩ := List.get_of_mem hmem
    refine ⟨j, ?_, ?_⟩
    · rw [hj]; exact hk
    · rw [hj]; exact hxy
  choose f hf using hex
  have hinj : Function.Injective f := by
    intro i1 i2 h12
    by_contra hne
    have hk1 := (hf i1).1
    have hk2 := (hf i2).1
    rw [h12] at hk1
    have hkk : keyEq (m1.get i1).1 (m1.get i2).1 = true :=
      keyEq_trans _ _ _ hk1 ((keyEq_symm _ _).trans hk2)
    rcases Nat.lt_or_gt_of_ne (fun hv => hne (Fin.ext hv)) with hlt | hgt
    · have := List.pairwise_iff_get.mp hp1 i1 i2 hlt
      rw [hkk] at this
      cases this
    · have := List.pairwise_iff_get.mp hp1 i2 i1 hgt
      rw [keyEq_symm, hkk] at this
      cases this
  have hsurj : Function.Surjective f :=
    Function.Injective.surjective_of_fintype (finCongr hlen) hinj
  intro k2 y hmem
  obtain ⟨j, hj⟩ := List.get_of_mem hmem
  obtain ⟨i, hi⟩ := hsurj j
  have hk := (hf i).1
  have hxy := (hf i).2
  rw [hi, hj] at hk hxy
  refine ⟨(m1.get i).2, ?_, ?_⟩
  · exact MapIndex_unique m1 hd1 k2 (m1.get i).1 (m1.get i).2 (List.get_mem m1 i.1 i.2)
      ((keyEq_symm _ _).trans hk)
  · exact hsym (m1.get i).1 (m1.get i).2 (List.get_mem m1 i.1 i.2) k2 y hmem hxy

theorem WellFormedElems_mem (xs : List GoValue) (h : WellFormedElems xs = true) (x : GoValue)
    (hx : x ∈ xs) : WellFormed x = true := by
  induction xs with
  | nil => cases hx
  | cons y ys ih =>
    have hunf : WellFormedElems (y :: ys) = (WellFormed y && WellFormedElems ys) := rfl
    rw [hunf, Bool.and_eq_true] at h
    rcases List.mem_cons.mp hx with h1 | h1
    · rw [h1]; exact h.1
    · exact ih h.2 h1

theorem WellFormedEntries_mem (m : List (GoValue × GoValue)) (h : WellFormedEntries m = true)
    (k x : GoValue) (hx : (k, x) ∈ m) : WellFormed x = true := by
  induction m with
  | nil => cases hx
  | cons e rest ih =>
    obtain ⟨k0, x0⟩ := e
    have hunf : WellFormedEntries ((k0, x0) :: rest) =
        (WellFormed x0 && WellFormedEntries rest) := rfl
    rw [hunf, Bool.and_eq_true] at h
    rcases List.mem_cons.mp hx with h1 | h1
    · rw [(Prod.mk.inj h1).2]; exact h.1
    · exact ih h.2 h1

theorem DeepEqualElems_symm (xs : List GoValue) :
    ∀ ys : List GoValue, xs.length = ys.length →
      (∀ x, x ∈ xs → ∀ y, y ∈ ys → DeepEqual x y = true → DeepEqual y x = true) →
      DeepEqualElems xs ys = true → DeepEqualElems ys xs = true := by
  induction xs with
  | nil =>
    intro ys hlen _ _
    cases ys with
    | nil => rfl
    | cons y ys => cases hlen
  | cons x xs ih =>
    intro ys hlen hsym h
    cases ys with
    | nil => cases hlen
    | cons y ys =>
      have hunf : DeepEqualElems (x :: xs) (y :: ys) = (DeepEqual x y && DeepEqualElems xs ys) := rfl
      have hunf2 : DeepEqualElems (y :: ys) (x :: xs) = (DeepEqual y x && DeepEqualElems ys xs) := rfl
      rw [hunf, Bool.and_eq_true] at h
      rw [hunf2, Bool.and_eq_true]
      refine ⟨hsym x (List.mem_cons_self _ _) y (List.mem_cons_self _ _) h.1, ?_⟩
      exact ih ys (by simpa using hlen)
        (fun a ha b hb => hsym a (List.mem_cons_of_mem _ ha) b (List.mem_cons_of_mem _ hb)) h.2

theorem DeepEqual_symm_imp : ∀ (n : Nat) (a b : GoValue), sizeOf a < n →
    WellFormed a = true → WellFormed b = true → DeepEqual a b = true → DeepEqual b a = true := by
  intro n
  induction n with
  | zero => intro a b h; omega
  | succ n ih =>
    intro a b hsz ha hb h
    cases a <;> cases b <;> first | exact absurd h Bool.false_ne_true | skip
    case nil.nil => rfl
    case bool.bool x y =>
      have h1 : (x == y) = true := h
      show (y == x) = true
      rw [Bool.beq_comm]; exact h1
    case int.int x y =>
      have h1 : (x == y) = true := h
      show (y == x) = true
      rw [beq_iff_eq] at h1 ⊢; exact h1.symm
    case int64.int64 x y =>
      have h1 : (x == y) = true := h
      show (y == x) = true
      rw [beq_iff_eq] at h1 ⊢; exact h1.symm
    case uint8.uint8 x y =>
      have h1 : (x == y) = true := h
      show (y == x) = true
      rw [beq_iff_eq] at h1 ⊢; exact h1.symm
    case uintptr.uintptr x y =>
      have h1 : (x == y) = true := h
      show (y == x) = true
      rw [beq_iff_eq] at h1 ⊢; exact h1.symm
    case string.string x y =>
      have h1 : (x == y) = true := h
      show (y == x) = true
      rw [beq_iff_eq] at h1 ⊢; exact h1.symm
    case unsafePointer.unsafePointer x y =>
      have h1 : (x == y) = true := h
      show (y == x) = true
      rw [beq_iff_eq] at h1 ⊢; exact h1.symm
    case nilPtr.nilPtr x y =>
      have h1 : (x == y) = true := h
      show (y == x) = true
      rw [beq_iff_eq] at h1 ⊢; exact h1.symm
    case nilSlice.nilSlice x y =>
      have h1 : (x == y) = true := h
      show (y == x) = true
      rw [beq_iff_eq] at h1 ⊢; exact h1.symm
    case nilChan.nilChan x y =>
      have h1 : (x == y) = true := h
      show (y == x) = true
      rw [beq_iff_eq] at h1 ⊢; exact h1.symm
    case nilFunc.nilFunc x y =>
      have h1 : (x == y) = true := h
      show (y == x) = true
      rw [beq_iff_eq] at h1 ⊢; exact h1.symm
    case nilMap.nilMap k1 e1 k2 e2 =>
      have h1 : (k1 == k2 && e1 == e2) = true := h
      show (k2 == k1 && e2 == e1) = true
      simp only [Bool.and_eq_true, beq_iff_eq] at h1 ⊢
      exact ⟨h1.1.symm, h1.2.symm⟩
    case chan.chan e1 a1 e2 a2 =>
      have h1 : (e1 == e2 && a1 == a2) = true := h
      show (e2 == e1 && a2 == a1) = true
      simp only [Bool.and_eq_true, beq_iff_eq] at h1 ⊢
      exact ⟨h1.1.symm, h1.2.symm⟩
    case ptr.ptr e1 a1 x e2 a2 y =>
      have h1 : (e1 == e2 && (a1 == a2 || DeepEqual x y)) = true := h
      show (e2 == e1 && (a2 == a1 || DeepEqual y x)) = true
      simp only [Bool.and_eq_true, Bool.or_eq_true, beq_iff_eq] at h1 ⊢
      refine ⟨h1.1.symm, ?_⟩
      rcases h1.2 with h2 | h2
      · exact Or.inl h2.symm
      · right
        have hs : sizeOf x < n := by
          simp only [GoValue.ptr.sizeOf_spec] at hsz
          omega
        exact ih x y hs ha hb h2
    case slice.slice e1 a1 xs e2 a2 ys =>
      have h1 : (e1 == e2 && xs.length == ys.length && (a1 == a2 || DeepEqualElems xs ys)) = true := h
      show (e2 == e1 && ys.length == xs.length && (a2 == a1 || DeepEqualElems ys xs)) = true
      simp only [Bool.and_eq_true, Bool.or_eq_true, beq_iff_eq] at h1 ⊢
      refine ⟨⟨h1.1.1.symm, h1.1.2.symm⟩, ?_⟩
      rcases h1.2 with h2 | h2
      · exact Or.inl h2.symm
      · right
        refine DeepEqualElems_symm xs ys h1.1.2 ?_ h2
        intro x hx y hy hxy
        have hs : sizeOf x < n := by
          have := List.sizeOf_lt_of_mem hx
          simp only [GoValue.slice.sizeOf_spec] at hsz
          omega
        exact ih x y hs (WellFormedElems_mem xs ha x hx) (WellFormedElems_mem ys hb y hy) hxy
    case struct.struct n1 xs n2 ys =>
      have h1 : (n1 == n2 && xs.length == ys.length && DeepEqualElems xs ys) = true := h
      show (n2 == n1 && ys.length == xs.length && DeepEqualElems ys xs) = true
      simp only [Bool.and_eq_true, beq_iff_eq] at h1 ⊢
      refine ⟨⟨h1.1.1.symm, h1.1.2.symm⟩, ?_⟩
      refine DeepEqualElems_symm xs ys h1.1.2 ?_ h1.2
      intro x hx y hy hxy
      have hs : sizeOf x < n := by
        have := List.sizeOf_lt_of_mem hx
        simp only [GoValue.struct.sizeOf_spec] at hsz
        omega
      exact ih x y hs (WellFormedElems_mem xs ha x hx) (WellFormedElems_mem ys hb y hy) hxy
    case map.map k1 e1 a1 m1 k2 e2 a2 m2 =>
      have h1 : (k1 == k2 && e1 == e2 && m1.length == m2.length &&
          (a1 == a2 || DeepEqualEntries m1 m2)) = true := h
      show (k2 == k1 && e2 == e1 && m2.length == m1.length &&
          (a2 == a1 || DeepEqualEntries m2 m1)) = true
      have ha1 : (keysDistinct m1 && WellFormedEntries m1) = true := ha
      have hb1 : (keysDistinct m2 && WellFormedEntries m2) = true := hb
      simp only [Bool.and_eq_true, Bool.or_eq_true, beq_iff_eq] at h1 ha1 hb1 ⊢
      refine ⟨⟨⟨h1.1.1.1.symm, h1.1.1.2.symm⟩, h1.1.2.symm⟩, ?_⟩
      rcases h1.2 with h2 | h2
      · exact Or.inl h2.symm
      · right
        refine DeepEqualEntries_symm m1 m2 ?_ ha1.1 h1.1.2 h2
        intro k x hx k' y hy hxy
        have hs : sizeOf x < n := by
          have := List.sizeOf_lt_of_mem hx
          simp only [GoValue.map.sizeOf_spec, Prod.mk.sizeOf_spec] at hsz this
          omega
        exact ih x y hs (WellFormedEntries_mem m1 ha1.2 k x hx)
          (WellFormedEntries_mem m2 hb1.2 k' y hy) hxy

theorem DeepEqual_symm (a b : GoValue) (ha : WellFormed a = true) (hb : WellFormed b = true) :
    DeepEqual a b = DeepEqual b a := by
  cases h1 : DeepEqual a b
  · cases h2 : DeepEqual b a
    · rfl
    · rw [DeepEqual_symm_imp _ b a (Nat.lt_succ_self _) hb ha h2] at h1
      cases h1
  · exact (DeepEqual_symm_imp _ a b (Nat.lt_succ_self _) ha hb h1).symm

theorem filterMap_length_congr {α β γ : Type} (f : α → Option β) (g : α → Option γ)
    (l : List α) (h : ∀ x ∈ l, (f x).isSome = (g x).isSome) :
    (l.filterMap f).length = (l.filterMap g).length := by
  induction l with
  | nil => rfl
  | cons x rest ih =>
    have hrest := ih (fun y hy => h y (List.mem_cons_of_mem x hy))
    have hx := h x (List.mem_cons_self x rest)
    cases hf : f x <;> cases hg : g x <;> simp [hf, hg] at hx <;>
      simp [List.filterMap_cons, hf, hg, hrest]

theorem equalsViolation_symm (a e : GoValue) (ha : WellFormed a = true)
    (he : WellFormed e = true) : equalsViolation a e = equalsViolation e a := by
  rw [equalsViolation, equalsViolation, DeepEqual_symm a e ha he, Bool.and_comm (isNilLike a)]

theorem get?_mem {α : Type} (l : List α) (i : Nat) (a : α) (h : l.get? i = some a) : a ∈ l := by
  rw [List.get?_eq_some] at h
  obtain ⟨hi, ha⟩ := h
  rw [← ha]
  exact List.get_mem l i hi

/-! ## Lemmas on `Equals` over any deep equality and rendering -/

theorem Equals_eq_EqualsWith (p : Assert) (args : List GoValue) (stack : List Frame)
    (w : World) : p.Equals args stack w = p.EqualsWith DeepEqual sprintfTypeValue args stack w :=
  rfl

theorem run_eq_runWith (v : Verb) (p : Assert) (stack : List Frame) (w : World) :
    v.run p stack w = v.runWith DeepEqual sprintfTypeValue p stack w := by
  cases v <;> rfl

theorem EqualsBodyWith_reported (deepEqual : GoValue → GoValue → Bool)
    (typeValue : GoValue → String) (p : Assert) (r : Reporter) (args : List GoValue)
    (stack : List Frame) (ht : p.t = some r) (hlen : args.length = p.args.length)
    (i : Nat) (w : World) (hi : i < p.args.length) :
    p.EqualsBodyWith deepEqual typeValue args stack i w =
      .returned (w.reported r (callerLocation stack)
        (equalsFailureAtWith deepEqual typeValue p.args args i).toList) := by
  have hi2 : i < args.length := by omega
  obtain ⟨a, ha⟩ : ∃ a, p.args.get? i = some a := ⟨_, List.get?_eq_get hi⟩
  obtain ⟨e, he⟩ : ∃ e, args.get? i = some e := ⟨_, List.get?_eq_get hi2⟩
  simp only [Assert.EqualsBodyWith, equalsFailureAtWith, ha, he, isNil_eq,
    fail_reporter p r _ stack _ w ht, equalsViolationWith, equalsReasonWith]
  cases deepEqual a e <;> cases isNilLike a <;> cases isNilLike e <;> simp [reported_nil]

theorem EqualsWith_reported (deepEqual : GoValue → GoValue → Bool)
    (typeValue : GoValue → String) (p : Assert) (r : Reporter) (args : List GoValue)
    (stack : List Frame) (w : World) (ht : p.t = some r) (hcap : 1 ≤ p.args.length)
    (hlen : args.length = p.args.length) :
    p.EqualsWith deepEqual typeValue args stack w =
      .returned (w.reported r (callerLocation stack)
        (equalsFailuresWith deepEqual typeValue p.args args)) := by
  have h1 : ¬ p.args.length < 1 := by omega
  simp only [Assert.EqualsWith, h1, hlen, if_false, ne_eq, not_true_eq_false,
    equalsFailuresWith, List.range_eq_range']
  exact forLoop_reported _ r _ _ p.args.length
    (fun i w hi => EqualsBodyWith_reported deepEqual typeValue p r args stack ht hlen i w hi)
    _ 0 w (by omega)

theorem Verb_runWith_reported (deepEqual : GoValue → GoValue → Bool)
    (typeValue : GoValue → String) (v : Verb) (p : Assert) (r : Reporter)
    (stack : List Frame) (w : World) (ht : p.t = some r) :
    v.runWith deepEqual typeValue p stack w =
      .returned (w.reported r (callerLocation stack)
        (v.failuresWith deepEqual typeValue p.args)) := by
  by_cases h0 : p.args.length < 1
  · cases v <;>
      simp [Verb.runWith, Verb.failuresWith, h0, Assert.EqualsWith, Assert.IsNil,
        Assert.IsNotNil, Assert.IsTrue, Assert.IsFalse, fail_reporter p r _ stack _ w ht]
  · have hcap : 1 ≤ p.args.length := by omega
    cases v with
    | Equals args =>
      by_cases hl : p.args.length = args.length
      · have hf : (Verb.Equals args).failuresWith deepEqual typeValue p.args =
            equalsFailuresWith deepEqual typeValue p.args args := by
          show (if p.args.length < 1 then ["arguments is empty"]
            else if p.args.length ≠ args.length then ["arguments length not match"]
            else equalsFailuresWith deepEqual typeValue p.args args) = _
          rw [if_neg h0, if_neg (fun h => h hl)]
        rw [hf]
        exact EqualsWith_reported deepEqual typeValue p r args stack w ht hcap hl.symm
      · have hf : (Verb.Equals args).failuresWith deepEqual typeValue p.args =
            ["arguments length not match"] := by
          show (if p.args.length < 1 then ["arguments is empty"]
            else if p.args.length ≠ args.length then ["arguments length not match"]
            else equalsFailuresWith deepEqual typeValue p.args args) = _
          rw [if_neg h0, if_pos hl]
        rw [hf]
        show p.EqualsWith deepEqual typeValue args stack w = _
        rw [Assert.EqualsWith, if_neg h0, if_pos hl, fail_reporter p r _ stack _ w ht]
    | IsNil =>
      have hf : Verb.IsNil.failuresWith deepEqual typeValue p.args = isNilFailures p.args := by
        show (if p.args.length < 1 then ["arguments is empty"] else isNilFailures p.args) = _
        rw [if_neg h0]
      rw [hf]
      exact IsNil_reported p r stack w ht hcap
    | IsNotNil =>
      have hf : Verb.IsNotNil.failuresWith deepEqual typeValue p.args =
          isNotNilFailures p.args := by
        show (if p.args.length < 1 then ["arguments is empty"] else isNotNilFailures p.args) = _
        rw [if_neg h0]
      rw [hf]
      exact IsNotNil_reported p r stack w ht hcap
    | IsTrue =>
      have hf : Verb.IsTrue.failuresWith deepEqual typeValue p.args = isTrueFailures p.args := by
        show (if p.args.length < 1 then ["arguments is empty"] else isTrueFailures p.args) = _
        rw [if_neg h0]
      rw [hf]
      exact IsTrue_reported p r stack w ht hcap
    | IsFalse =>
      have hf : Verb.IsFalse.failuresWith deepEqual typeValue p.args =
          isFalseFailures p.args := by
        show (if p.args.length < 1 then ["arguments is empty"] else isFalseFailures p.args) = _
        rw [if_neg h0]
      rw [hf]
      exact IsFalse_reported p r stack w ht hcap

theorem fail_nil_reporter (p : Assert) (f : Frame) (stack : List Frame) (reason : String)
    (w : World) (ht : p.t = none) :
    p.fail (f :: stack) reason w =
      .panicked ⟨w.stdout ++ failureRecord (callerLocation stack) reason, w.signals⟩
        "invalid memory address or nil pointer dereference" := by
  simp [Assert.fail, ht, getFileLine_two, failureRecord]

/-! ## Claims -/

/-- C1 fails as stated: on a context whose reporter is nil, `Equals` of
captured `(1, 2)` against expected `(3, 4)` has two violating positions but
writes the record of the 1st only and then panics on the call of the
reporter. -/
theorem Equals_nil_reporter_stops_at_first :
    (equalsFailures [GoValue.int 1, GoValue.int 2] [GoValue.int 3, GoValue.int 4]).length = 2 ∧
    (New none [GoValue.int 1, GoValue.int 2]).Equals [GoValue.int 3, GoValue.int 4]
        [⟨"assert_test.go", 176⟩] ⟨"", []⟩ =
      .panicked ⟨"\t1st argument does not equal\n\twant:\n\tint(3)\n\tgot:\n\tint(1)\n" ++
        "\tassert_test.go:176\n", []⟩ "invalid memory address or nil pointer dereference" := by
  decide

/-- C1, amended: on a context whose reporter is not nil, with at least one
captured value and an expected sequence of the same length, `Equals` returns
after reporting exactly the failures `equalsFailuresWith`: in ascending
position order, one failure for each position whose captured and expected
values are not deep-equal and not both nil-like, none for the other positions,
each with the reason `ordinal ++ " argument does not equal\n\twant:\n" ++
indent(render expected) ++ "\n\tgot:\n" ++ indent(render captured)`. This
holds whatever `reflect.DeepEqual` and the rendering `fmt.Sprintf("%T(%v)")`
answer: they are `deepEqual` and `typeValue`, and `Equals` is the method with
the modelled ones. -/
theorem Equals_reports_violations (deepEqual : GoValue → GoValue → Bool)
    (typeValue : GoValue → String) (p : Assert) (r : Reporter) (args : List GoValue)
    (stack : List Frame) (w : World) (ht : p.t = some r) (hcap : 1 ≤ p.args.length)
    (hlen : args.length = p.args.length) :
    p.EqualsWith deepEqual typeValue args stack w =
      .returned (w.reported r (callerLocation stack)
        (equalsFailuresWith deepEqual typeValue p.args args)) ∧
    (∀ i a e, p.args.get? i = some a → args.get? i = some e →
      equalsFailureAtWith deepEqual typeValue p.args args i =
        if !deepEqual a e && !(isNilLike a && isNilLike e) then
          some (convertOrdinalToString (toUint (i + 1)) ++
            " argument does not equal\n\twant:\n" ++ addPrefixPerLine (typeValue e) "\t" ++
            "\n\tgot:\n" ++ addPrefixPerLine (typeValue a) "\t")
        else none) ∧
    p.Equals args stack w = p.EqualsWith DeepEqual sprintfTypeValue args stack w := by
  refine ⟨EqualsWith_reported deepEqual typeValue p r args stack w ht hcap hlen, ?_, rfl⟩
  intro i a e ha he
  simp only [equalsFailureAtWith, ha, he, equalsViolationWith, equalsReasonWith]

/-- Witness of the amended C1 on the pair of the test suite, with the modelled
`reflect.DeepEqual` and `fmt.Sprintf`: captured `(1)` against expected `(2)`
writes one record, want `int(2)`, got `int(1)`, and signals the reporter. -/
theorem Equals_reports_violations_witness :
    (New (some 7) [GoValue.int 1]).EqualsWith DeepEqual sprintfTypeValue [GoValue.int 2]
        [⟨"assert_test.go", 176⟩] ⟨"", []⟩ =
      .returned ⟨"\t1st argument does not equal\n\twant:\n\tint(2)\n\tgot:\n\tint(1)\n" ++
        "\tassert_test.go:176\n", [7]⟩ :=
  (Equals_reports_violations DeepEqual sprintfTypeValue (New (some 7) [GoValue.int 1]) 7
    [GoValue.int 2] [⟨"assert_test.go", 176⟩] ⟨"", []⟩ rfl (by decide) rfl).1.trans (by decide)

/-- C2 fails as stated: `Equals` of captured `(1, 2)` against expected
`(3, 4)` finds two violations and signals the reporter twice, not once; and on
a context whose reporter is nil the same call signals nobody. -/
theorem Equals_two_violations_signals_twice :
    (Verb.failures (.Equals [GoValue.int 3, GoValue.int 4])
        [GoValue.int 1, GoValue.int 2]).length = 2 ∧
    ((New (some 7) [GoValue.int 1, GoValue.int 2]).Equals [GoValue.int 3, GoValue.int 4]
        [⟨"assert_test.go", 176⟩] ⟨"", []⟩).world.signals = [7, 7] ∧
    ¬ ((New (some 7) [GoValue.int 1, GoValue.int 2]).Equals [GoValue.int 3, GoValue.int 4]
        [⟨"assert_test.go", 176⟩] ⟨"", []⟩).world.signals.length = 1 ∧
    ((New none [GoValue.int 1, GoValue.int 2]).Equals [GoValue.int 3, GoValue.int 4]
        [⟨"assert_test.go", 176⟩] ⟨"", []⟩).world.signals = [] := by
  decide

/-- C2, amended: every verb invocation on a context whose reporter is not nil
returns after reporting the failures it finds, and it signals the reporter
once for each of them: once for a guard failure, once for every violating
position otherwise. This holds whatever `reflect.DeepEqual` and the rendering
`fmt.Sprintf("%T(%v)")` answer: they are `deepEqual` and `typeValue`. -/
theorem verb_signals_once_per_failure (deepEqual : GoValue → GoValue → Bool)
    (typeValue : GoValue → String) (v : Verb) (p : Assert) (r : Reporter)
    (stack : List Frame) (w : World) (ht : p.t = some r) :
    v.runWith deepEqual typeValue p stack w =
      .returned (w.reported r (callerLocation stack)
        (v.failuresWith deepEqual typeValue p.args)) ∧
    (v.runWith deepEqual typeValue p stack w).world.signals =
      w.signals ++ List.replicate (v.failuresWith deepEqual typeValue p.args).length r ∧
    v.run p stack w = v.runWith DeepEqual sprintfTypeValue p stack w := by
  rw [Verb_runWith_reported deepEqual typeValue v p r stack w ht]
  exact ⟨rfl, rfl, run_eq_runWith v p stack w⟩

/-- Witness of the amended C2, with the modelled `reflect.DeepEqual` and
`fmt.Sprintf`: the two violations of `(1, 2)` against `(3, 4)` give two
signals. -/
theorem verb_signals_once_per_failure_witness :
    ((Verb.Equals [GoValue.int 3, GoValue.int 4]).runWith DeepEqual sprintfTypeValue
        (New (some 7) [GoValue.int 1, GoValue.int 2]) [] ⟨"", []⟩).world.signals =
      [] ++ List.replicate 2 7 :=
  (verb_signals_once_per_failure DeepEqual sprintfTypeValue
    (Verb.Equals [GoValue.int 3, GoValue.int 4])
    (New (some 7) [GoValue.int 1, GoValue.int 2]) 7 [] ⟨"", []⟩ rfl).2.1.trans (by decide)

/-- C3 fails as stated: `Equals` of the captured map `{3: "OK", 4: nil byte
slice}` against the expected map `{3: "OK", 4: untyped nil}` does report a
violation. -/
theorem Equals_nested_nil_maps_reports :
    equalsViolation mapWithNilBytes mapWithNil = true ∧
    (New (some 7) [mapWithNilBytes]).Equals [mapWithNil] [⟨"assert_test.go", 203⟩] ⟨"", []⟩ ≠
      .returned ⟨"", []⟩ ∧
    ((New (some 7) [mapWithNilBytes]).Equals [mapWithNil] [⟨"assert_test.go", 203⟩]
      ⟨"", []⟩).world.signals = [7] := by
  decide

/-- C3, amended: `Equals` of the captured map `{3: "OK", 4: nil byte slice}`
against the expected map `{3: "OK", 4: untyped nil}` reports one violation,
for the 1st position: the entries under key 3 match, the entries under key 4
are both nil-like but not deep-equal, so the maps are not deep-equal, and the
maps themselves are not nil-like. -/
theorem Equals_nested_nil_maps (r : Reporter) (stack : List Frame) (w : World) :
    (New (some r) [mapWithNilBytes]).Equals [mapWithNil] stack w =
      .returned (w.reported r (callerLocation stack)
        [equalsReason 1 mapWithNilBytes mapWithNil]) ∧
    DeepEqual (.string "OK") (.string "OK") = true ∧
    isNilLike (.nilSlice .uint8) = true ∧ isNilLike .nil = true ∧
    DeepEqual (.nilSlice .uint8) .nil = false ∧
    DeepEqual mapWithNilBytes mapWithNil = false ∧
    isNilLike mapWithNilBytes = false ∧ isNilLike mapWithNil = false := by
  refine ⟨?_, by decide, by decide, by decide, by decide, by decide, by decide, by decide⟩
  rw [Equals_single]
  have h : equalsViolation mapWithNilBytes mapWithNil = true := by decide
  simp [h]

/-- C4: nil reconciliation looks at the captured and the expected value only,
not inside them: two non-nil maps at different addresses that hold, under one
key, values that are not deep-equal (such as a nil byte slice and untyped nil,
both nil-like) make `Equals` report exactly one failure, for the 1st
position; for the maps `{3: "OK", 4: nil byte slice}` and `{3: "OK", 4: nil}`
its reason is "1st argument does not equal" with want
`map[int]interface {}(map[3:OK 4:<nil>])` and got
`map[int]interface {}(map[3:OK 4:[]])`. -/
theorem Equals_reconciles_top_level_only (r : Reporter) (stack : List Frame) (w : World)
    (k1 e1 k2 e2 : GoType) (a1 a2 : Nat) (m1 m2 : List (GoValue × GoValue))
    (key x y : GoValue) (ha : a1 ≠ a2) (hx : (key, x) ∈ m1) (hy : MapIndex m2 key = some y)
    (hxy : DeepEqual x y = false) :
    (New (some r) [.map k1 e1 a1 m1]).Equals [.map k2 e2 a2 m2] stack w =
      .returned (w.reported r (callerLocation stack)
        [equalsReason 1 (.map k1 e1 a1 m1) (.map k2 e2 a2 m2)]) ∧
    equalsReason 1 mapWithNilBytes mapWithNil =
      "1st argument does not equal\n\twant:\n\tmap[int]interface {}(map[3:OK 4:<nil>])" ++
        "\n\tgot:\n\tmap[int]interface {}(map[3:OK 4:[]])" := by
  refine ⟨?_, by decide⟩
  rw [Equals_single]
  have hd : DeepEqual (.map k1 e1 a1 m1) (.map k2 e2 a2 m2) = false := by
    rw [DeepEqual_map, DeepEqualEntries_false m1 m2 key x y hx hy hxy]
    simp [ha]
  have h : equalsViolation (.map k1 e1 a1 m1) (.map k2 e2 a2 m2) = true := by
    rw [equalsViolation, hd]
    rfl
  simp [h]

/-- Witness of C4 on the two maps of the test suite. -/
theorem Equals_reconciles_top_level_only_witness :
    (New (some 7) [mapWithNilBytes]).Equals [mapWithNil] [⟨"assert_test.go", 203⟩] ⟨"", []⟩ =
      .returned ⟨"\t1st argument does not equal\n\twant:\n" ++
        "\tmap[int]interface {}(map[3:OK 4:<nil>])\n\tgot:\n" ++
        "\tmap[int]interface {}(map[3:OK 4:[]])\n\tassert_test.go:203\n", [7]⟩ :=
  (Equals_reconciles_top_level_only 7 [⟨"assert_test.go", 203⟩] ⟨"", []⟩ .int .iface .int .iface
    1 2 [(.int 3, .string "OK"), (.int 4, .nilSlice .uint8)]
    [(.int 3, .string "OK"), (.int 4, .nil)] (.int 4) (.nilSlice .uint8) .nil
    (by decide) (by simp) rfl (by decide)).1.trans (by decide)

/-- C5: for a captured value `a` and an expected value `e` at one position of
an `Equals` call that are not deep-equal, the iteration for that position
reports nothing if and only if `a` and `e` are both nil-like, and otherwise
reports the violation of that position. Untyped nil against a nil slice, a nil
map or a nil pointer, in either orientation, reports nothing; a non-nil slice
or map (an empty one too) against untyped nil reports a violation whose want
is `<nil>(<nil>)`. -/
theorem Equals_suppresses_iff_both_nil_like (p : Assert) (r : Reporter) (args : List GoValue)
    (stack : List Frame) (w : World) (i : Nat) (a e : GoValue) (ht : p.t = some r)
    (ha : p.args.get? i = some a) (he : args.get? i = some e) (hne : DeepEqual a e = false) :
    (p.EqualsBody args stack i w = .returned w ↔ (isNilLike a = true ∧ isNilLike e = true)) ∧
    (¬ (isNilLike a = true ∧ isNilLike e = true) →
      p.EqualsBody args stack i w =
        .returned (w.reported r (callerLocation stack) [equalsReason (i + 1) a e])) ∧
    (∀ t, (New (some r) [.nil]).Equals [.nilSlice t] stack w = .returned w ∧
      (New (some r) [.nilSlice t]).Equals [.nil] stack w = .returned w) ∧
    (∀ k t, (New (some r) [.nil]).Equals [.nilMap k t] stack w = .returned w ∧
      (New (some r) [.nilMap k t]).Equals [.nil] stack w = .returned w) ∧
    (∀ t, (New (some r) [.nil]).Equals [.nilPtr t] stack w = .returned w ∧
      (New (some r) [.nilPtr t]).Equals [.nil] stack w = .returned w) ∧
    (∀ t addr elems, (New (some r) [.slice t addr elems]).Equals [.nil] stack w =
      .returned (w.reported r (callerLocation stack)
        ["1st argument does not equal\n\twant:\n\t<nil>(<nil>)\n\tgot:\n" ++
          addPrefixPerLine (sprintfTypeValue (.slice t addr elems)) "\t"])) ∧
    (∀ k t addr entries, (New (some r) [.map k t addr entries]).Equals [.nil] stack w =
      .returned (w.reported r (callerLocation stack)
        ["1st argument does not equal\n\twant:\n\t<nil>(<nil>)\n\tgot:\n" ++
          addPrefixPerLine (sprintfTypeValue (.map k t addr entries)) "\t"])) := by
  have hbody : p.EqualsBody args stack i w = .returned (w.reported r (callerLocation stack)
      (if isNilLike a = true ∧ isNilLike e = true then [] else [equalsReason (i + 1) a e])) := by
    simp only [Assert.EqualsBody, ha, he, hne, isNil_eq, fail_reporter p r _ stack _ w ht,
      equalsReason]
    cases isNilLike a <;> cases isNilLike e <;> simp [reported_nil]
  refine ⟨?_, ?_, ?_, ?_, ?_, ?_, ?_⟩
  · rw [hbody]
    by_cases hboth : isNilLike a = true ∧ isNilLike e = true
    · simp [hboth, reported_nil]
    · simp only [hboth, if_false, iff_false]
      exact reported_ne w r _ _
  · intro hboth
    rw [hbody, if_neg hboth]
  · intro t
    exact ⟨Equals_single_suppressed r .nil (.nilSlice t) stack w rfl,
      Equals_single_suppressed r (.nilSlice t) .nil stack w rfl⟩
  · intro k t
    exact ⟨Equals_single_suppressed r .nil (.nilMap k t) stack w rfl,
      Equals_single_suppressed r (.nilMap k t) .nil stack w rfl⟩
  · intro t
    exact ⟨Equals_single_suppressed r .nil (.nilPtr t) stack w rfl,
      Equals_single_suppressed r (.nilPtr t) .nil stack w rfl⟩
  · intro t addr elems
    rw [Equals_single_reported r (.slice t addr elems) .nil stack w rfl, equalsReason_want_nil]
  · intro k t addr entries
    rw [Equals_single_reported r (.map k t addr entries) .nil stack w rfl,
      equalsReason_want_nil]

/-- Witness of C5: in captured `(1, [])` against expected `(1, nil)` the second
pair, an empty non-nil slice and untyped nil, is not deep-equal and is not
suppressed. -/
theorem Equals_suppresses_iff_both_nil_like_witness :
    ((New (some 7) [.int 1, .slice .iface 1 []]).EqualsBody [.int 1, .nil]
        [⟨"assert_test.go", 238⟩] 1 ⟨"", []⟩ = .returned ⟨"", []⟩ ↔
      (isNilLike (.slice .iface 1 []) = true ∧ isNilLike .nil = true)) ∧
    isNilLike (.slice .iface 1 []) = false :=
  ⟨(Equals_suppresses_iff_both_nil_like (New (some 7) [.int 1, .slice .iface 1 []]) 7
    [.int 1, .nil] [⟨"assert_test.go", 238⟩] ⟨"", []⟩ 1 (.slice .iface 1 []) .nil rfl rfl rfl
    rfl).1, rfl⟩

/-- C6: `isNil` returns a boolean for every value and never lets a panic out:
its result is whether the value is nil-like. For a value of a non-nilable kind
(boolean, integer, `uintptr`, string, struct) the result is `false`, although
the body panics there before the deferred function recovers. -/
theorem isNil_never_panics :
    (∀ v, ∃ b, isNil v = .ok b) ∧ (∀ v, isNil v = .ok (isNilLike v)) ∧
    (∀ v, nonNilableKind v = true →
      isNil v = .ok false ∧ ∃ msg, isNilBody v = .error msg) := by
  refine ⟨fun v => ⟨isNilLike v, isNil_eq v⟩, isNil_eq, ?_⟩
  intro v hv
  cases v <;> first | exact ⟨rfl, _, rfl⟩ | cases hv

/-- Witness of C6 on the values of the test suite: `3`, `0`, `uintptr(0)`, a
boolean. -/
theorem isNil_never_panics_witness :
    isNil (.int 3) = .ok false ∧ isNil (.int 0) = .ok false ∧
    isNil (.uintptr 0) = .ok false ∧ isNil (.bool true) = .ok false :=
  ⟨(isNil_never_panics.2.2 (.int 3) rfl).1, (isNil_never_panics.2.2 (.int 0) rfl).1,
    (isNil_never_panics.2.2 (.uintptr 0) rfl).1, (isNil_never_panics.2.2 (.bool true) rfl).1⟩

/-- C7 fails as stated: on a context whose reporter is nil, `IsNil` of captured
`(nil, 0, 1)` writes "2nd argument is not nil" and then panics on the call of
the reporter: the 3rd position, which is not nil either, is never evaluated. -/
theorem IsNil_nil_reporter_stops_at_first :
    isNilFailures [GoValue.nil, GoValue.int 0, GoValue.int 1] =
      ["2nd argument is not nil", "3rd argument is not nil"] ∧
    (New none [GoValue.nil, GoValue.int 0, GoValue.int 1]).IsNil [⟨"assert_test.go", 303⟩]
        ⟨"", []⟩ =
      .panicked ⟨"\t2nd argument is not nil\n\tassert_test.go:303\n", []⟩
        "invalid memory address or nil pointer dereference" := by
  decide

/-- C7, amended: on a context whose reporter is not nil, with at least one
captured value, `IsNil` goes through every position and returns after
reporting, in ascending position order, exactly one failure
`ordinal ++ " argument is not nil"` for each position whose value is not
nil-like (neither untyped nil nor a nil value of a nilable kind) and nothing
for the others. A non-nil slice or map, empty or not, is not nil. -/
theorem IsNil_reports_non_nil (p : Assert) (r : Reporter) (stack : List Frame) (w : World)
    (ht : p.t = some r) (hcap : 1 ≤ p.args.length) :
    p.IsNil stack w =
      .returned (w.reported r (callerLocation stack) (isNilFailures p.args)) ∧
    (∀ i a, p.args.get? i = some a →
      isNilFailureAt p.args i =
        if isNilLike a then none
        else some (convertOrdinalToString (toUint (i + 1)) ++ " argument is not nil")) ∧
    (∀ t addr elems, isNilLike (.slice t addr elems) = false) ∧
    (∀ k t addr entries, isNilLike (.map k t addr entries) = false) := by
  refine ⟨IsNil_reported p r stack w ht hcap, ?_, fun _ _ _ => rfl, fun _ _ _ _ => rfl⟩
  intro i a ha
  rw [isNilFailureAt, predicateFailureAt_get _ _ _ _ _ ha]
  cases isNilLike a <;> rfl

/-- Witness of the amended C7 on the test suite: an empty non-nil slice and an empty
non-nil map give "1st argument is not nil", captured `(nil, 0)` gives only
"2nd argument is not nil". -/
theorem IsNil_reports_non_nil_witness :
    (New (some 7) [.slice .iface 1 []]).IsNil [⟨"assert_test.go", 291⟩] ⟨"", []⟩ =
      .returned ⟨"\t1st argument is not nil\n\tassert_test.go:291\n", [7]⟩ ∧
    (New (some 7) [.map .string .iface 1 []]).IsNil [⟨"assert_test.go", 295⟩] ⟨"", []⟩ =
      .returned ⟨"\t1st argument is not nil\n\tassert_test.go:295\n", [7]⟩ ∧
    (New (some 7) [.nil, .int 0]).IsNil [⟨"assert_test.go", 303⟩] ⟨"", []⟩ =
      .returned ⟨"\t2nd argument is not nil\n\tassert_test.go:303\n", [7]⟩ :=
  ⟨(IsNil_reports_non_nil (New (some 7) [.slice .iface 1 []]) 7 [⟨"assert_test.go", 291⟩]
      ⟨"", []⟩ rfl (by decide)).1.trans (by decide),
    (IsNil_reports_non_nil (New (some 7) [.map .string .iface 1 []]) 7
      [⟨"assert_test.go", 295⟩] ⟨"", []⟩ rfl (by decide)).1.trans (by decide),
    (IsNil_reports_non_nil (New (some 7) [.nil, .int 0]) 7 [⟨"assert_test.go", 303⟩]
      ⟨"", []⟩ rfl (by decide)).1.trans (by decide)⟩

/-- C8 fails as stated: on a context whose reporter is nil that captured
`(0, 1)`, `IsNil` writes the failure of the 1st position and panics, and
`IsNotNil` reports nothing: one failure in total, not `len(captured) = 2`. -/
theorem IsNil_IsNotNil_nil_reporter_total :
    (New none [GoValue.int 0, GoValue.int 1]).IsNil [⟨"assert_test.go", 347⟩] ⟨"", []⟩ =
      .panicked ⟨"\t1st argument is not nil\n\tassert_test.go:347\n", []⟩
        "invalid memory address or nil pointer dereference" ∧
    (New none [GoValue.int 0, GoValue.int 1]).IsNotNil [⟨"assert_test.go", 347⟩] ⟨"", []⟩ =
      .returned ⟨"", []⟩ ∧
    (New none [GoValue.int 0, GoValue.int 1]).args.length = 2 := by
  decide

/-- C8, amended: `IsNotNil` is the complement of `IsNil`: on a context whose
reporter is not nil, with at least one captured value, `IsNotNil` reports
`ordinal ++ " argument is nil"` at a position if and only if `IsNil` reports
no failure there, and the failures the two verbs report on the same captured
values are `len(captured)` in total. -/
theorem IsNotNil_complements_IsNil (p : Assert) (r : Reporter) (stack : List Frame)
    (w : World) (ht : p.t = some r) (hcap : 1 ≤ p.args.length) :
    p.IsNotNil stack w =
      .returned (w.reported r (callerLocation stack) (isNotNilFailures p.args)) ∧
    p.IsNil stack w =
      .returned (w.reported r (callerLocation stack) (isNilFailures p.args)) ∧
    (∀ i, i < p.args.length →
      (isNotNilFailureAt p.args i =
          some (convertOrdinalToString (toUint (i + 1)) ++ " argument is nil") ↔
        isNilFailureAt p.args i = none)) ∧
    (isNilFailures p.args).length + (isNotNilFailures p.args).length = p.args.length := by
  refine ⟨IsNotNil_reported p r stack w ht hcap, IsNil_reported p r stack w ht hcap, ?_, ?_⟩
  · intro i hi
    obtain ⟨a, ha⟩ : ∃ a, p.args.get? i = some a := ⟨_, List.get?_eq_get hi⟩
    rw [isNotNilFailureAt, isNilFailureAt, predicateFailureAt_get _ _ _ _ _ ha,
      predicateFailureAt_get _ _ _ _ _ ha]
    cases isNilLike a <;> simp
  · have h := filterMap_length_complement (isNilFailureAt p.args) (isNotNilFailureAt p.args)
      (List.range p.args.length) (by
        intro i hi
        have hi2 : i < p.args.length := List.mem_range.mp hi
        obtain ⟨a, ha⟩ : ∃ a, p.args.get? i = some a := ⟨_, List.get?_eq_get hi2⟩
        rw [isNotNilFailureAt, isNilFailureAt, predicateFailureAt_get _ _ _ _ _ ha,
          predicateFailureAt_get _ _ _ _ _ ha]
        cases isNilLike a <;> simp)
    simpa [isNilFailures, isNotNilFailures] using h

/-- Witness of the amended C8 on captured `(0, nil)`: `IsNotNil` reports the 2nd position,
`IsNil` the 1st. -/
theorem IsNotNil_complements_IsNil_witness :
    (New (some 7) [.int 0, .nil]).IsNotNil [⟨"assert_test.go", 347⟩] ⟨"", []⟩ =
      .returned ⟨"\t2nd argument is nil\n\tassert_test.go:347\n", [7]⟩ ∧
    (New (some 7) [.int 0, .nil]).IsNil [⟨"assert_test.go", 347⟩] ⟨"", []⟩ =
      .returned ⟨"\t1st argument is not nil\n\tassert_test.go:347\n", [7]⟩ :=
  ⟨(IsNotNil_complements_IsNil (New (some 7) [.int 0, .nil]) 7 [⟨"assert_test.go", 347⟩]
      ⟨"", []⟩ rfl (by decide)).1.trans (by decide),
    (IsNotNil_complements_IsNil (New (some 7) [.int 0, .nil]) 7 [⟨"assert_test.go", 347⟩]
      ⟨"", []⟩ rfl (by decide)).2.1.trans (by decide)⟩

/-- C9 fails as stated: on a context whose reporter is nil, `IsTrue` of
captured `(nil, false)` writes "1st argument is not true" and then panics on
the call of the reporter: the 2nd position, which is not `true` either, is not
reported. -/
theorem IsTrue_nil_reporter_stops_at_first :
    isTrueFailures [GoValue.nil, GoValue.bool false] =
      ["1st argument is not true", "2nd argument is not true"] ∧
    (New none [GoValue.nil, GoValue.bool false]).IsTrue [⟨"assert_test.go", 379⟩] ⟨"", []⟩ =
      .panicked ⟨"\t1st argument is not true\n\tassert_test.go:379\n", []⟩
        "invalid memory address or nil pointer dereference" := by
  decide

/-- C9, amended: on a context whose reporter is not nil, with at least one
captured value, `IsTrue` reports `ordinal ++ " argument is not true"` exactly at the positions
whose value is not the boolean `true`, and `IsFalse` reports
`ordinal ++ " argument is not false"` exactly at the positions whose value is
not the boolean `false`; every value violates at least one of the two verbs,
and a value that is no boolean, untyped nil included, violates both. -/
theorem IsTrue_IsFalse_exact_boolean (p : Assert) (r : Reporter) (stack : List Frame)
    (w : World) (ht : p.t = some r) (hcap : 1 ≤ p.args.length) :
    p.IsTrue stack w =
      .returned (w.reported r (callerLocation stack) (isTrueFailures p.args)) ∧
    p.IsFalse stack w =
      .returned (w.reported r (callerLocation stack) (isFalseFailures p.args)) ∧
    (∀ i a, p.args.get? i = some a →
      (isTrueFailureAt p.args i = none ↔ a = .bool true) ∧
      (a ≠ .bool true → isTrueFailureAt p.args i =
        some (convertOrdinalToString (toUint (i + 1)) ++ " argument is not true")) ∧
      (isFalseFailureAt p.args i = none ↔ a = .bool false) ∧
      (a ≠ .bool false → isFalseFailureAt p.args i =
        some (convertOrdinalToString (toUint (i + 1)) ++ " argument is not false")) ∧
      (isTrueFailureAt p.args i ≠ none ∨ isFalseFailureAt p.args i ≠ none) ∧
      ((∀ b, a ≠ .bool b) →
        isTrueFailureAt p.args i ≠ none ∧ isFalseFailureAt p.args i ≠ none)) ∧
    (∀ b, GoValue.nil ≠ .bool b) := by
  refine ⟨IsTrue_reported p r stack w ht hcap, IsFalse_reported p r stack w ht hcap, ?_,
    fun b h => GoValue.noConfusion h⟩
  intro i a ha
  rw [isTrueFailureAt, isFalseFailureAt, predicateFailureAt_get _ _ _ _ _ ha,
    predicateFailureAt_get _ _ _ _ _ ha]
  have ht1 := notTheBoolean_iff true a
  have hf1 := notTheBoolean_iff false a
  have hor : notTheBoolean true a = true ∨ notTheBoolean false a = true := by
    cases a <;> simp [notTheBoolean]
  refine ⟨?_, ?_, ?_, ?_, ?_, ?_⟩
  · rw [← not_iff_not, ← ne_eq a, ← ht1]
    cases notTheBoolean true a <;> simp
  · intro h
    rw [if_pos (ht1.mpr h)]
  · rw [← not_iff_not, ← ne_eq a, ← hf1]
    cases notTheBoolean false a <;> simp
  · intro h
    rw [if_pos (hf1.mpr h)]
  · rcases hor with h | h
    · left
      rw [if_pos h]
      exact Option.some_ne_none _
    · right
      rw [if_pos h]
      exact Option.some_ne_none _
  · intro hb
    rw [if_pos (ht1.mpr (hb true)), if_pos (hf1.mpr (hb false))]
    exact ⟨Option.some_ne_none _, Option.some_ne_none _⟩

/-- Witness of the amended C9 on the test suite: captured `(true, nil)` fails `IsTrue` at
the 2nd position only, and fails `IsFalse` at both positions. -/
theorem IsTrue_IsFalse_exact_boolean_witness :
    (New (some 7) [.bool true, .nil]).IsTrue [⟨"assert_test.go", 379⟩] ⟨"", []⟩ =
      .returned ⟨"\t2nd argument is not true\n\tassert_test.go:379\n", [7]⟩ ∧
    (New (some 7) [.bool true, .nil]).IsFalse [⟨"assert_test.go", 379⟩] ⟨"", []⟩ =
      .returned ⟨"\t1st argument is not false\n\tassert_test.go:379\n" ++
        "\t2nd argument is not false\n\tassert_test.go:379\n", [7, 7]⟩ :=
  ⟨(IsTrue_IsFalse_exact_boolean (New (some 7) [.bool true, .nil]) 7
      [⟨"assert_test.go", 379⟩] ⟨"", []⟩ rfl (by decide)).1.trans (by decide),
    (IsTrue_IsFalse_exact_boolean (New (some 7) [.bool true, .nil]) 7
      [⟨"assert_test.go", 379⟩] ⟨"", []⟩ rfl (by decide)).2.1.trans (by decide)⟩

/-- C10 fails as stated: on a context whose reporter is nil that captured no
value, `Equals(3)` writes the record "arguments is empty" and then panics on
the call of the reporter instead of returning. -/
theorem Equals_empty_nil_reporter_panics :
    (New none []).Equals [GoValue.int 3] [⟨"assert_test.go", 160⟩] ⟨"", []⟩ =
      .panicked ⟨"\targuments is empty\n\tassert_test.go:160\n", []⟩
        "invalid memory address or nil pointer dereference" := by
  decide

/-- C10, amended: each of the five verbs, invoked on a context whose reporter
is not nil and that captured no value, returns after reporting exactly one
failure, with the reason "arguments is empty"; for `Equals` whatever the
expected values are. -/
theorem verbs_report_empty_arguments (p : Assert) (r : Reporter) (stack : List Frame)
    (w : World) (ht : p.t = some r) (hempty : p.args.length = 0) :
    (∀ args, p.Equals args stack w =
      .returned (w.reported r (callerLocation stack) ["arguments is empty"])) ∧
    p.IsNil stack w = .returned (w.reported r (callerLocation stack) ["arguments is empty"]) ∧
    p.IsNotNil stack w =
      .returned (w.reported r (callerLocation stack) ["arguments is empty"]) ∧
    p.IsTrue stack w = .returned (w.reported r (callerLocation stack) ["arguments is empty"]) ∧
    p.IsFalse stack w =
      .returned (w.reported r (callerLocation stack) ["arguments is empty"]) := by
  have h0 : p.args.length < 1 := by omega
  refine ⟨fun args => ?_, ?_, ?_, ?_, ?_⟩ <;>
    simp only [Assert.Equals, Assert.IsNil, Assert.IsNotNil, Assert.IsTrue, Assert.IsFalse, h0,
      if_true, fail_reporter p r _ stack _ w ht]

/-- Witness of the amended C10 on the test suite: `Equals` with nothing captured against
the expected `(3, 4)` writes the one record and signals the reporter once. -/
theorem verbs_report_empty_arguments_witness :
    (New (some 7) []).Equals [.int 3, .int 4] [⟨"assert_test.go", 160⟩] ⟨"", []⟩ =
      .returned ⟨"\targuments is empty\n\tassert_test.go:160\n", [7]⟩ :=
  ((verbs_report_empty_arguments (New (some 7) []) 7 [⟨"assert_test.go", 160⟩] ⟨"", []⟩ rfl
    rfl).1 [.int 3, .int 4]).trans (by decide)

/-- C11 fails as stated: on a context whose reporter is nil, `Equals` of
captured `(1)` against expected `(1, 2)` writes the record "arguments length
not match" and then panics on the call of the reporter instead of returning. -/
theorem Equals_length_nil_reporter_panics :
    (New none [GoValue.int 1]).Equals [GoValue.int 1, GoValue.int 2]
        [⟨"assert_test.go", 168⟩] ⟨"", []⟩ =
      .panicked ⟨"\targuments length not match\n\tassert_test.go:168\n", []⟩
        "invalid memory address or nil pointer dereference" := by
  decide

/-- C11, amended: on a context whose reporter is not nil, with at least one
captured value, `Equals` with an expected sequence of another length returns
after reporting exactly one failure, with the reason "arguments length not
match", and no failure for any position, whatever the values are. -/
theorem Equals_reports_length_mismatch (p : Assert) (r : Reporter) (args : List GoValue)
    (stack : List Frame) (w : World) (ht : p.t = some r) (hcap : 1 ≤ p.args.length)
    (hlen : args.length ≠ p.args.length) :
    p.Equals args stack w =
      .returned (w.reported r (callerLocation stack) ["arguments length not match"]) := by
  have h1 : ¬ p.args.length < 1 := by omega
  have h2 : p.args.length ≠ args.length := fun h => hlen h.symm
  simp only [Assert.Equals, h1, h2, if_false, if_true, ne_eq, not_false_eq_true,
    fail_reporter p r _ stack _ w ht]

/-- Witness of the amended C11 on the test suite: captured `(1)` against expected `(1, 2)`. -/
theorem Equals_reports_length_mismatch_witness :
    (New (some 7) [.int 1]).Equals [.int 1, .int 2] [⟨"assert_test.go", 168⟩] ⟨"", []⟩ =
      .returned ⟨"\targuments length not match\n\tassert_test.go:168\n", [7]⟩ :=
  (Equals_reports_length_mismatch (New (some 7) [.int 1]) 7 [.int 1, .int 2]
    [⟨"assert_test.go", 168⟩] ⟨"", []⟩ rfl (by decide) (by decide)).trans (by decide)

/-- C12: with at least one captured value and an expected sequence of the same
length whose values are pairwise deep-equal, `Equals` returns with the world
as it found it: nothing is written to the diagnostic output and the reporter
(nil or not) is not signalled. -/
theorem Equals_silent_on_deep_equal (p : Assert) (args : List GoValue) (stack : List Frame)
    (w : World) (hcap : 1 ≤ p.args.length) (hlen : args.length = p.args.length)
    (heq : ∀ i a e, p.args.get? i = some a → args.get? i = some e → DeepEqual a e = true) :
    p.Equals args stack w = .returned w ∧
    (p.Equals args stack w).world.stdout = w.stdout ∧
    (p.Equals args stack w).world.signals = w.signals := by
  have h1 : ¬ p.args.length < 1 := by omega
  have hrun : p.Equals args stack w = .returned w := by
    simp only [Assert.Equals, h1, hlen, if_false, ne_eq, not_true_eq_false]
    refine forLoop_unchanged _ p.args.length ?_ _ 0 w (by omega)
    intro i w hi
    have hi2 : i < args.length := by omega
    obtain ⟨a, ha⟩ : ∃ a, p.args.get? i = some a := ⟨_, List.get?_eq_get hi⟩
    obtain ⟨e, he⟩ : ∃ e, args.get? i = some e := ⟨_, List.get?_eq_get hi2⟩
    simp only [Assert.EqualsBody, ha, he, heq i a e ha he, if_true]
  rw [hrun]
  exact ⟨rfl, rfl, rfl⟩

/-- Witness of C12 on the test suite: captured `(1, 2, 3)` against expected
`(1, 2, 3)`, here on a context whose reporter is nil. -/
theorem Equals_silent_on_deep_equal_witness :
    (New none [.int 1, .int 2, .int 3]).Equals [.int 1, .int 2, .int 3]
      [⟨"assert_test.go", 272⟩] ⟨"", []⟩ = .returned ⟨"", []⟩ :=
  (Equals_silent_on_deep_equal (New none [.int 1, .int 2, .int 3]) [.int 1, .int 2, .int 3]
    [⟨"assert_test.go", 272⟩] ⟨"", []⟩ (by decide) rfl (by
      intro i a e ha he
      match i, ha, he with
      | 0, ha, he => cases ha; cases he; rfl
      | 1, ha, he => cases ha; cases he; rfl
      | 2, ha, he => cases ha; cases he; rfl
      | n + 3, ha, he => cases ha)).1

/-- C13: equality in `Equals` is type-sensitive: for every integer `n`,
captured `int n` against expected `int64 n` is a violation with want
`int64(n)` and got `int(n)`; a slice of `int` against a slice of `int64` is a
violation whatever the elements are; and two slices of `int` at different
addresses whose element sequences differ (the same elements in another order,
for one) are a violation. -/
theorem Equals_is_type_sensitive (r : Reporter) (stack : List Frame) (w : World) :
    (∀ n : Int, (New (some r) [.int n]).Equals [.int64 n] stack w =
      .returned (w.reported r (callerLocation stack)
        ["1st argument does not equal\n\twant:\n\tint64(" ++ Itoa n ++ ")\n\tgot:\n\tint(" ++
          Itoa n ++ ")"])) ∧
    (∀ (a1 a2 : Nat) (xs ys : List GoValue),
      (New (some r) [.slice .int a1 xs]).Equals [.slice .int64 a2 ys] stack w =
        .returned (w.reported r (callerLocation stack)
          [equalsReason 1 (.slice .int a1 xs) (.slice .int64 a2 ys)])) ∧
    (∀ (a1 a2 : Nat) (xs ys : List Int), a1 ≠ a2 → xs ≠ ys →
      (New (some r) [.slice .int a1 (xs.map .int)]).Equals [.slice .int a2 (ys.map .int)]
          stack w =
        .returned (w.reported r (callerLocation stack)
          [equalsReason 1 (.slice .int a1 (xs.map .int)) (.slice .int a2 (ys.map .int))])) := by
  refine ⟨?_, ?_, ?_⟩
  · intro n
    rw [Equals_single_reported r (.int n) (.int64 n) stack w rfl, equalsReason_int_int64]
  · intro a1 a2 xs ys
    exact Equals_single_reported r _ _ stack w rfl
  · intro a1 a2 xs ys ha hne
    apply Equals_single_reported
    have hd : DeepEqual (.slice .int a1 (xs.map .int)) (.slice .int a2 (ys.map .int)) = false := by
      have hunf : DeepEqual (.slice .int a1 (xs.map .int)) (.slice .int a2 (ys.map .int)) =
          (GoType.int == GoType.int && (xs.map GoValue.int).length == (ys.map GoValue.int).length &&
            (a1 == a2 || DeepEqualElems (xs.map .int) (ys.map .int))) := rfl
      rw [hunf]
      by_cases hlen : xs.length = ys.length
      · have he : DeepEqualElems (xs.map GoValue.int) (ys.map GoValue.int) = false := by
          by_contra hc
          exact hne (DeepEqualElems_int xs ys hlen (by simpa using hc))
        simp [he, ha]
      · simp [hlen]
    rw [equalsViolation, hd]
    rfl

/-- Witness of C13 on the test suite: `1` against `int64(1)`, `[]int{1, 2, 3}`
against `[]int64{1, 2, 3}`, and `[]int{1, 2, 3}` against `[]int{1, 3, 2}`. -/
theorem Equals_is_type_sensitive_witness :
    (New (some 7) [.int 1]).Equals [.int64 1] [⟨"assert_test.go", 191⟩] ⟨"", []⟩ =
      .returned ⟨"\t1st argument does not equal\n\twant:\n\tint64(1)\n\tgot:\n\tint(1)\n" ++
        "\tassert_test.go:191\n", [7]⟩ ∧
    (New (some 7) [.slice .int 1 [.int 1, .int 2, .int 3]]).Equals
        [.slice .int64 2 [.int64 1, .int64 2, .int64 3]] [⟨"assert_test.go", 215⟩] ⟨"", []⟩ =
      .returned ⟨"\t1st argument does not equal\n\twant:\n\t[]int64([1 2 3])\n\tgot:\n" ++
        "\t[]int([1 2 3])\n\tassert_test.go:215\n", [7]⟩ ∧
    (New (some 7) [.slice .int 1 [.int 1, .int 2, .int 3]]).Equals
        [.slice .int 2 [.int 1, .int 3, .int 2]] [⟨"assert_test.go", 227⟩] ⟨"", []⟩ =
      .returned ⟨"\t1st argument does not equal\n\twant:\n\t[]int([1 3 2])\n\tgot:\n" ++
        "\t[]int([1 2 3])\n\tassert_test.go:227\n", [7]⟩ :=
  ⟨((Equals_is_type_sensitive 7 [⟨"assert_test.go", 191⟩] ⟨"", []⟩).1 1).trans (by decide),
    ((Equals_is_type_sensitive 7 [⟨"assert_test.go", 215⟩] ⟨"", []⟩).2.1 1 2
      [.int 1, .int 2, .int 3] [.int64 1, .int64 2, .int64 3]).trans (by decide),
    ((Equals_is_type_sensitive 7 [⟨"assert_test.go", 227⟩] ⟨"", []⟩).2.2 1 2 [1, 2, 3] [1, 3, 2]
      (by decide) (by decide)).trans (by decide)⟩

/-- C14 fails as stated: at `n = 2 ^ 63` the conversion through `int` wraps
and the label is "-9223372036854775808th", not the decimal text of `n`
followed by "th". -/
theorem convertOrdinalToString_wraps_at_2_63 :
    convertOrdinalToString 9223372036854775808 = "-9223372036854775808th" ∧
    convertOrdinalToString 9223372036854775808 ≠ Nat.repr 9223372036854775808 ++ "th" := by
  decide

/-- C14, amended: for every `n` below `2 ^ 63`, which covers every position a
verb can pass, the label is "" for `0`, "1st" for `1`, "2nd" for `2`, "3rd"
for `3`, and the decimal text of `n` followed by "th" for every other `n`. -/
theorem convertOrdinalToString_below_2_63 (n : Nat) (hn : n < 2 ^ 63) :
    convertOrdinalToString n =
      if n = 0 then ""
      else if n = 1 then "1st"
      else if n = 2 then "2nd"
      else if n = 3 then "3rd"
      else Nat.repr n ++ "th" := by
  by_cases h4 : n < 4
  · interval_cases n <;> rfl
  · rw [convertOrdinalToString_big n (by omega) (by omega) (by omega) (by omega),
      if_neg (by omega), if_neg (by omega), if_neg (by omega), if_neg (by omega)]
    have ht : toInt n = Int.ofNat n := by
      unfold toInt
      rw [Nat.mod_eq_of_lt (by omega), if_pos hn]
      rfl
    rw [ht]
    rfl

/-- Witness of the amended C14 on the labels of 4, 10, 11, 21 and 100. -/
theorem convertOrdinalToString_below_2_63_witness :
    convertOrdinalToString 4 = "4th" ∧ convertOrdinalToString 10 = "10th" ∧
    convertOrdinalToString 11 = "11th" ∧ convertOrdinalToString 21 = "21th" ∧
    convertOrdinalToString 100 = "100th" :=
  ⟨(convertOrdinalToString_below_2_63 4 (by decide)).trans (by decide),
    (convertOrdinalToString_below_2_63 10 (by decide)).trans (by decide),
    (convertOrdinalToString_below_2_63 11 (by decide)).trans (by decide),
    (convertOrdinalToString_below_2_63 21 (by decide)).trans (by decide),
    (convertOrdinalToString_below_2_63 100 (by decide)).trans (by decide)⟩

/-- C15: indenting with the empty prefix is the identity: for every text,
`addPrefixPerLine text "" = text`. -/
theorem addPrefixPerLine_empty_identity (text : String) : addPrefixPerLine text "" = text := by
  rw [addPrefixPerLine_eq, indentEachLine, indentSegmentsFrom_empty, Split, joinNewline_split]

/-- C16: for every text and prefix, `addPrefixPerLine` is the segments of the
text between its newlines, joined again with newlines, each segment prepended
with the prefix except a last segment that is empty and is not also the first,
which stays empty. So the empty text gives the prefix alone, a first segment
and every segment that is not the last are prefixed even when empty, and for a
text `t` that does not end in a newline the result for `t ++ "\n"` is the
result for `t` followed by a newline. -/
theorem addPrefixPerLine_indents_segments (text pfx : String) :
    addPrefixPerLine text pfx = indentEachLine text pfx ∧
    addPrefixPerLine "" pfx = pfx ∧
    (∀ n i v, (i = 0 ∨ i + 1 ≠ n ∨ v ≠ "") → indentSegment pfx n i v = pfx ++ v) ∧
    (∀ n i, i ≠ 0 → i + 1 = n → indentSegment pfx n i "" = "") ∧
    (∀ t : String, t.data.getLast? ≠ some '\n' →
      addPrefixPerLine (t ++ "\n") pfx = addPrefixPerLine t pfx ++ "\n") := by
  refine ⟨addPrefixPerLine_eq text pfx, ?_, ?_, ?_, fun t => addPrefixPerLine_append_newline t pfx⟩
  · rw [addPrefixPerLine_no_newline "" pfx (by decide)]
    exact String.append_empty pfx
  · intro n i v h
    rw [indentSegment, if_neg]
    rintro ⟨h1, h2, h3⟩
    rcases h with h | h | h
    · exact h2 h
    · exact h h3
    · exact h h1
  · intro n i h1 h2
    rw [indentSegment, if_pos ⟨rfl, h1, h2⟩]

/-- Witness of C16 on the test suite: "" gives "-", "\n" gives "-\n", "a\n"
gives "-a\n", "a\nb" gives "-a\n-b", and "a" extended by a newline. -/
theorem addPrefixPerLine_indents_segments_witness :
    addPrefixPerLine "" "-" = "-" ∧ addPrefixPerLine "\n" "-" = "-\n" ∧
    addPrefixPerLine "a\n" "-" = "-a\n" ∧ addPrefixPerLine "a\nb" "-" = "-a\n-b" ∧
    addPrefixPerLine ("a" ++ "\n") "-" = addPrefixPerLine "a" "-" ++ "\n" :=
  ⟨(addPrefixPerLine_indents_segments "" "-").2.1,
    (addPrefixPerLine_indents_segments "\n" "-").1.trans (by decide),
    (addPrefixPerLine_indents_segments "a\n" "-").1.trans (by decide),
    (addPrefixPerLine_indents_segments "a\nb" "-").1.trans (by decide),
    (addPrefixPerLine_indents_segments "a" "-").2.2.2.2 "a" (by decide)⟩

/-- C17 fails as stated: on a context whose reporter is nil, `Fail("error")`
writes the record and then panics on the call of the reporter: no reporter is
signalled and the call does not return. -/
theorem Fail_nil_reporter_panics :
    (New none []).Fail [⟨"assert_test.go", 150⟩] "error" ⟨"", []⟩ =
      .panicked ⟨"\terror\n\tassert_test.go:150\n", []⟩
        "invalid memory address or nil pointer dereference" ∧
    ∀ w1, (New none []).Fail [⟨"assert_test.go", 150⟩] "error" ⟨"", []⟩ ≠ .returned w1 := by
  refine ⟨by decide, ?_⟩
  intro w1 h
  have h2 : (New none []).Fail [⟨"assert_test.go", 150⟩] "error" ⟨"", []⟩ =
      .panicked ⟨"\terror\n\tassert_test.go:150\n", []⟩
        "invalid memory address or nil pointer dereference" := by decide
  rw [h2] at h
  cases h

/-- C17, amended: for every reason and every context bound to a reporter,
`Fail(reason)` is `fail(reason)`: it returns after appending the one record
`"\t" ++ reason ++ "\n\t" ++ callerLocation ++ "\n"` to the diagnostic output
and signalling the reporter once. -/
theorem Fail_reports_one_record (p : Assert) (r : Reporter) (stack : List Frame)
    (reason : String) (w : World) (ht : p.t = some r) :
    p.Fail stack reason w = p.fail (⟨"assert.go", 101⟩ :: stack) reason w ∧
    p.Fail stack reason w =
      .returned ⟨w.stdout ++ ("\t" ++ reason ++ "\n\t" ++ callerLocation stack ++ "\n"),
        w.signals ++ [r]⟩ := by
  refine ⟨rfl, ?_⟩
  rw [Assert.Fail, fail_reporter p r _ stack reason w ht]
  simp [World.reported, concatAll, failureRecord]

/-- Witness of the amended C17 on the test suite: `Fail("error")`. -/
theorem Fail_reports_one_record_witness :
    (New (some 7) []).Fail [⟨"assert_test.go", 150⟩] "error" ⟨"", []⟩ =
      .returned ⟨"\terror\n\tassert_test.go:150\n", [7]⟩ :=
  (Fail_reports_one_record (New (some 7) []) 7 [⟨"assert_test.go", 150⟩] "error" ⟨"", []⟩
    rfl).2.trans (by decide)

/-- C18: for every reporter `t`, nil included, and every sequence of values,
`New(t)(vs...)` is a context whose reporter is `t` and whose captured sequence
is `vs`, in the same order and with the dynamic type of every value; with no
value the captured sequence is empty. Constructing it is a pure function: it
writes nothing and signals nobody. -/
theorem New_captures_as_is (t : Option Reporter) (vs : List GoValue) :
    (New t vs).t = t ∧ (New t vs).args = vs ∧
    (New t vs).args.map TypeOf = vs.map TypeOf ∧
    (New t []).args = [] ∧ (New none vs).t = none := ⟨rfl, rfl, rfl, rfl, rfl⟩

/-- C19: for every two non-empty sequences of well-formed values, `Equals` of a
context capturing `xs` against `ys` and of a context capturing `ys` against
`xs` report the same number of failures; when the lengths differ both report
the one failure "arguments length not match"; when they agree, every position
is reported by both or by neither, and its two reasons have want and got
exchanged. -/
theorem Equals_symmetric_positions (xs ys : List GoValue) (r : Reporter) (stack : List Frame)
    (w : World) (hx : 1 ≤ xs.length) (hy : 1 ≤ ys.length)
    (hwx : WellFormedElems xs = true) (hwy : WellFormedElems ys = true) :
    (New (some r) xs).Equals ys stack w =
      .returned (w.reported r (callerLocation stack) ((Verb.Equals ys).failures xs)) ∧
    (New (some r) ys).Equals xs stack w =
      .returned (w.reported r (callerLocation stack) ((Verb.Equals xs).failures ys)) ∧
    ((Verb.Equals ys).failures xs).length = ((Verb.Equals xs).failures ys).length ∧
    (xs.length ≠ ys.length →
      (Verb.Equals ys).failures xs = ["arguments length not match"] ∧
      (Verb.Equals xs).failures ys = ["arguments length not match"]) ∧
    (xs.length = ys.length →
      (Verb.Equals ys).failures xs = equalsFailures xs ys ∧
      (Verb.Equals xs).failures ys = equalsFailures ys xs ∧
      ∀ i a e, xs.get? i = some a → ys.get? i = some e →
        (equalsFailureAt xs ys i = none ∧ equalsFailureAt ys xs i = none) ∨
        (equalsFailureAt xs ys i = some (equalsReason (i + 1) a e) ∧
          equalsFailureAt ys xs i = some (equalsReason (i + 1) e a))) := by
  have hx0 : ¬ xs.length < 1 := by omega
  have hy0 : ¬ ys.length < 1 := by omega
  have hne : xs.length ≠ ys.length →
      (Verb.Equals ys).failures xs = ["arguments length not match"] ∧
      (Verb.Equals xs).failures ys = ["arguments length not match"] := by
    intro hl
    have hl2 : ys.length ≠ xs.length := fun h => hl h.symm
    refine ⟨?_, ?_⟩
    · show (if xs.length < 1 then ["arguments is empty"]
        else if xs.length ≠ ys.length then ["arguments length not match"]
        else equalsFailures xs ys) = _
      rw [if_neg hx0, if_pos hl]
    · show (if ys.length < 1 then ["arguments is empty"]
        else if ys.length ≠ xs.length then ["arguments length not match"]
        else equalsFailures ys xs) = _
      rw [if_neg hy0, if_pos hl2]
  have hat : ∀ i a e, xs.get? i = some a → ys.get? i = some e →
      (equalsFailureAt xs ys i = none ∧ equalsFailureAt ys xs i = none) ∨
      (equalsFailureAt xs ys i = some (equalsReason (i + 1) a e) ∧
        equalsFailureAt ys xs i = some (equalsReason (i + 1) e a)) := by
    intro i a e ha he
    have hs := equalsViolation_symm a e (WellFormedElems_mem xs hwx a (get?_mem xs i a ha))
      (WellFormedElems_mem ys hwy e (get?_mem ys i e he))
    simp only [equalsFailureAt, ha, he]
    rw [← hs]
    cases equalsViolation a e
    · exact Or.inl ⟨rfl, rfl⟩
    · exact Or.inr ⟨rfl, rfl⟩
  have heq : xs.length = ys.length →
      (Verb.Equals ys).failures xs = equalsFailures xs ys ∧
      (Verb.Equals xs).failures ys = equalsFailures ys xs := by
    intro hl
    refine ⟨?_, ?_⟩
    · show (if xs.length < 1 then ["arguments is empty"]
        else if xs.length ≠ ys.length then ["arguments length not match"]
        else equalsFailures xs ys) = _
      rw [if_neg hx0, if_neg (fun h => h hl)]
    · show (if ys.length < 1 then ["arguments is empty"]
        else if ys.length ≠ xs.length then ["arguments length not match"]
        else equalsFailures ys xs) = _
      rw [if_neg hy0, if_neg (fun h => h hl.symm)]
  refine ⟨Verb_run_reported (.Equals ys) (New (some r) xs) r stack w rfl,
    Verb_run_reported (.Equals xs) (New (some r) ys) r stack w rfl, ?_, hne,
    fun hl => ⟨(heq hl).1, (heq hl).2, hat⟩⟩
  by_cases hl : xs.length = ys.length
  · rw [(heq hl).1, (heq hl).2, equalsFailures, equalsFailures, ← hl]
    apply filterMap_length_congr
    intro i hi
    have hi1 : i < xs.length := List.mem_range.mp hi
    have hi2 : i < ys.length := by omega
    obtain ⟨a, ha⟩ : ∃ a, xs.get? i = some a := ⟨_, List.get?_eq_get hi1⟩
    obtain ⟨e, he⟩ : ∃ e, ys.get? i = some e := ⟨_, List.get?_eq_get hi2⟩
    rcases hat i a e ha he with h | h
    · rw [h.1, h.2]
    · rw [h.1, h.2]
      rfl
  · rw [(hne hl).1, (hne hl).2]

/-- Witness of C19: `(1, nil, {3: "OK", 4: nil byte slice})` against
`(2, nil slice, {3: "OK", 4: nil})` fails at the 1st and 3rd positions in
either direction. -/
theorem Equals_symmetric_positions_witness :
    ((Verb.Equals [.int 2, .nilSlice .iface, mapWithNil]).failures
        [.int 1, .nil, mapWithNilBytes]).length =
      ((Verb.Equals [.int 1, .nil, mapWithNilBytes]).failures
        [.int 2, .nilSlice .iface, mapWithNil]).length ∧
    ((Verb.Equals [.int 2, .nilSlice .iface, mapWithNil]).failures
        [.int 1, .nil, mapWithNilBytes]).length = 2 :=
  ⟨(Equals_symmetric_positions [.int 1, .nil, mapWithNilBytes]
      [.int 2, .nilSlice .iface, mapWithNil] 7 [] ⟨"", []⟩ (by decide) (by decide)
      (by decide) (by decide)).2.2.1, by decide⟩

/-- C20: the labels of two different unsigned words below `2 ^ 64` differ, and
the label of `n` is empty only for `n = 0`; so two positions of one verb call
never get the same ordinal label. -/
theorem convertOrdinalToString_distinct_labels (n m : Nat) (hn : n < 2 ^ 64) (hm : m < 2 ^ 64)
    (hne : n ≠ m) :
    convertOrdinalToString n ≠ convertOrdinalToString m ∧
    (convertOrdinalToString n = "" ↔ n = 0) := by
  refine ⟨fun h => hne (convertOrdinalToString_injective n m hn hm h), ?_⟩
  constructor
  · intro h
    have h0 : convertOrdinalToString 0 = "" := rfl
    exact convertOrdinalToString_injective n 0 hn (by omega) (h.trans h0.symm)
  · intro h
    rw [h]
    rfl

/-- Witness of C20 on the positions 1 and 21. -/
theorem convertOrdinalToString_distinct_labels_witness :
    convertOrdinalToString 1 ≠ convertOrdinalToString 21 ∧
    (convertOrdinalToString 1 = "" ↔ 1 = 0) :=
  convertOrdinalToString_distinct_labels 1 21 (by decide) (by decide) (by decide)

end GoAssert
